import Mathlib

/-!
Verification development for the noodles BGZF engine.

The multithreaded BGZF reader (noodles-bgzf/src/multithreaded_reader.rs) is embedded
at two levels:

* a small-step transition system over the pipeline's channels, worker pool, one-shot
  result cells and consumer, faithful to the producer/worker/consumer protocol, over
  which scheduling-independent properties (ordering, backpressure) are proved;
* a consumer-side functional model of `MultithreadedReader` (recv_buffer, read_block,
  fill_buf, consume, read, finish), justified by the ordering theorem, over which the
  buffered-reading behaviour is proved.

The block codec (`Block`, `read_frame_into`, `parse_block`) is not part of the sampled
sources, so it is modelled from the spec, as recorded in the doc comments below.
The CRAM `ExternalDataReaders` store is embedded at the end of the file.
-/

namespace NoodlesBgzf

/-- Error kinds surfaced by the BGZF engine: the distinguished unexpected-end-of-input
condition for truncated frames, and a generic invalid-data error for malformed blocks
(bad magic, bad size/extra field, checksum mismatch). -/
inductive IoErr where
  | unexpectedEof
  | invalidData
  deriving DecidableEq

deriving instance DecidableEq for Except

/-- Modelled from the spec: little-endian encoding of the 16-bit block-size subfield. -/
def le16 (n : Nat) : List Nat := [n % 256, n / 256 % 256]

/-- Modelled from the spec: little-endian encoding of a 32-bit trailer field. -/
def le32 (n : Nat) : List Nat :=
  [n % 256, n / 256 % 256, n / 65536 % 256, n / 16777216 % 256]

/-- Decodes a 16-bit little-endian value from the front of a byte list. -/
def le16dec (l : List Nat) : Nat := l.getD 0 0 + 256 * l.getD 1 0

/-- Decodes a 32-bit little-endian value from the front of a byte list. -/
def le32dec (l : List Nat) : Nat :=
  l.getD 0 0 + 256 * l.getD 1 0 + 65536 * l.getD 2 0 + 16777216 * l.getD 3 0

/-- Modelled from the spec: one bit step of the reflected CRC-32 computation with
polynomial 0xEDB88320. -/
def crc32Step (c : Nat) : Nat := if c % 2 = 1 then 0xEDB88320 ^^^ (c / 2) else c / 2

/-- Modelled from the spec: folds one byte into a CRC-32 accumulator. -/
def crc32Byte (c b : Nat) : Nat := crc32Step^[8] (c ^^^ b)

/-- Modelled from the spec: the CRC-32 checksum of the uncompressed payload, as stored
in the block trailer. -/
def crc32 (data : List Nat) : Nat := 0xFFFFFFFF ^^^ data.foldl crc32Byte 0xFFFFFFFF

lemma crc32Step_lt {c : Nat} (h : c < 2 ^ 32) : crc32Step c < 2 ^ 32 := by
  unfold crc32Step
  have hhalf : c / 2 < 2 ^ 32 := Nat.lt_of_le_of_lt (Nat.div_le_self c 2) h
  split
  · exact Nat.xor_lt_two_pow (by norm_num) hhalf
  · exact hhalf

lemma crc32Byte_lt {c b : Nat} (hc : c < 2 ^ 32) (hb : b < 256) : crc32Byte c b < 2 ^ 32 := by
  unfold crc32Byte
  have hxor : c ^^^ b < 2 ^ 32 :=
    Nat.xor_lt_two_pow hc (Nat.lt_of_lt_of_le hb (by norm_num))
  have : ∀ k x, x < 2 ^ 32 → crc32Step^[k] x < 2 ^ 32 := by
    intro k
    induction k with
    | zero => intro x hx; simpa using hx
    | succ k ih =>
      intro x hx
      rw [Function.iterate_succ_apply]
      exact ih _ (crc32Step_lt hx)
  exact this 8 _ hxor

lemma crc32_lt {data : List Nat} (h : ∀ b ∈ data, b < 256) : crc32 data < 2 ^ 32 := by
  unfold crc32
  have hfold : data.foldl crc32Byte 0xFFFFFFFF < 2 ^ 32 := by
    have : ∀ (l : List Nat), (∀ b ∈ l, b < 256) → ∀ c, c < 2 ^ 32 →
        l.foldl crc32Byte c < 2 ^ 32 := by
      intro l
      induction l with
      | nil => intro _ c hc; simpa using hc
      | cons a t ih =>
        intro hl c hc
        simp only [List.foldl_cons]
        exact ih (fun b hb => hl b (List.mem_cons_of_mem _ hb)) _
          (crc32Byte_lt hc (hl a (List.mem_cons_self _ _)))
    exact this data h _ (by norm_num)
  exact Nat.xor_lt_two_pow (by norm_num) hfold

/-- Modelled from the spec: one decompressed BGZF block: the compressed-stream
position stamped by the consumer, the on-disk size of the frame, the decompressed
payload, and a read cursor into the payload (the Data cursor of the source's Block). -/
structure Block where
  position : Nat := 0
  size : Nat := 0
  data : List Nat := []
  dataPos : Nat := 0
  deriving DecidableEq

/-- Remaining (unconsumed) payload bytes of a block, the slice `data().as_ref()`. -/
def Block.remaining (b : Block) : List Nat := b.data.drop b.dataPos

/-- Whether the block's cursor has unconsumed payload left, `data().has_remaining()`. -/
def Block.hasRemaining (b : Block) : Bool := b.dataPos < b.data.length

/-- Advances the block's cursor, `data_mut().consume(amt)`. -/
def Block.consumeData (b : Block) (amt : Nat) : Block :=
  { b with dataPos := min (b.dataPos + amt) b.data.length }

/-- Modelled from the spec: the fixed BGZF header magic bytes. -/
def bgzfMagic : List Nat := [31, 139, 8, 4]

/-- Total on-disk length of the frame at the head of a stream, read from the
little-endian block-size subfield (never less than the header's own length). -/
def frameLen (s : List Nat) : Nat := max (s.getD 4 0 + 256 * s.getD 5 0) 6

/-- Modelled from the spec: the producer-side raw frame read (`read_frame_into` of the
block reader module, which is not among the sampled sources). It reads the fixed
header, extracts the little-endian total-block-size subfield, and reads the remainder
of one frame without inflating. End of stream exactly at a frame boundary yields
`none`; a partial frame yields the distinguished unexpected-end-of-input error. -/
def read_frame_into (s : List Nat) : Except IoErr (Option (List Nat × List Nat)) :=
  if s.isEmpty then .ok none
  else if s.length < 6 then .error .unexpectedEof
  else if s.length < frameLen s then .error .unexpectedEof
  else .ok (some (s.take (frameLen s), s.drop (frameLen s)))

/-- Modelled from the spec: the worker-side block decode (`parse_block` of the block
reader module, which is not among the sampled sources). It validates the header magic,
requires room for header and trailer, extracts the payload, and checks it against the
CRC-32 and uncompressed-size trailer fields; any mismatch is a data error. The decoded
block carries the frame's on-disk size and its cursor at the start of the payload. -/
def parse_block (buf : List Nat) : Except IoErr Block :=
  if buf.take 4 ≠ bgzfMagic then .error .invalidData
  else if buf.length < 14 then .error .invalidData
  else
    let payload := (buf.drop 6).take (buf.length - 14)
    let trailer := buf.drop (buf.length - 8)
    if le32dec (trailer.take 4) ≠ crc32 payload then .error .invalidData
    else if le32dec (trailer.drop 4) ≠ payload.length % 4294967296 then .error .invalidData
    else .ok { position := 0, size := buf.length, data := payload, dataPos := 0 }

/-- Modelled from the spec: builds one self-contained frame for a payload: magic,
little-endian total-size subfield, stored payload, CRC-32 and size trailer. -/
def encode_frame (p : List Nat) : List Nat :=
  bgzfMagic ++ le16 (p.length + 14) ++ p ++ le32 (crc32 p) ++ le32 (p.length % 4294967296)

/-- Modelled from the spec: the reserved empty EOF marker block is a frame with an
empty payload. -/
def eofFrame : List Nat := encode_frame []

/-- Concatenates the frames of a list of payloads into one compressed stream. -/
def encodeAll (ps : List (List Nat)) : List Nat := (ps.map encode_frame).flatten

/-- The block a well-formed frame for payload `p` decodes to. -/
def mkBlock (p : List Nat) : Block :=
  { position := 0, size := p.length + 14, data := p, dataPos := 0 }

lemma read_frame_into_rest_lt {s f rest : List Nat}
    (h : read_frame_into s = .ok (some (f, rest))) : rest.length < s.length := by
  unfold read_frame_into at h
  split_ifs at h with h1 h2 h3
  · exact absurd h (by simp)
  · simp only [Except.ok.injEq, Option.some.injEq, Prod.mk.injEq] at h
    obtain ⟨hf, hrest⟩ := h
    subst hrest
    have h6 : 6 ≤ frameLen s := le_max_right _ _
    simp only [List.length_drop]
    omega

/-- Splits a raw stream into the frames the producer successfully reads, in order,
stopping at end of stream or the first frame-read error (fuel-indexed helper). -/
def splitFramesF : Nat → List Nat → List (List Nat)
  | 0, _ => []
  | fuel + 1, s =>
    match read_frame_into s with
    | .ok (some (f, rest)) => f :: splitFramesF fuel rest
    | _ => []

/-- Splits a raw stream into the frames the producer successfully reads, in order. -/
def splitFrames (s : List Nat) : List (List Nat) := splitFramesF (s.length + 1) s

/-- The producer thread's terminal result for a raw stream: `ok` once frames run out
at a frame boundary, or the first frame-read error (fuel-indexed helper). -/
def streamResultF : Nat → List Nat → Except IoErr Unit
  | 0, _ => .ok ()
  | fuel + 1, s =>
    match read_frame_into s with
    | .error e => .error e
    | .ok none => .ok ()
    | .ok (some (_, rest)) => streamResultF fuel rest

/-- The producer thread's terminal result for a raw stream. -/
def streamResult (s : List Nat) : Except IoErr Unit := streamResultF (s.length + 1) s

lemma splitFramesF_eq : ∀ {fuel : Nat} {s : List Nat}, s.length < fuel →
    splitFramesF fuel s = splitFrames s := by
  intro fuel
  induction fuel using Nat.strong_induction_on with
  | _ fuel ih =>
    intro s h
    cases fuel with
    | zero => omega
    | succ fuel =>
      unfold splitFrames
      simp only [splitFramesF]
      cases hr : read_frame_into s with
      | error e => rfl
      | ok o =>
        cases o with
        | none => rfl
        | some p =>
          obtain ⟨f, rest⟩ := p
          have hlt := read_frame_into_rest_lt hr
          have h1 : splitFramesF fuel rest = splitFramesF (rest.length + 1) rest := by
            have := ih fuel (by omega) (s := rest) (by omega)
            rwa [splitFrames] at this
          have h2 : splitFramesF s.length rest = splitFramesF (rest.length + 1) rest := by
            have := ih s.length (by omega) (s := rest) hlt
            rwa [splitFrames] at this
          simp only [h1, h2]

lemma splitFrames_some {s f rest : List Nat} (h : read_frame_into s = .ok (some (f, rest))) :
    splitFrames s = f :: splitFrames rest := by
  have hlt := read_frame_into_rest_lt h
  calc splitFrames s = splitFramesF (s.length + 1) s := rfl
    _ = f :: splitFramesF s.length rest := by simp only [splitFramesF]; rw [h]
    _ = f :: splitFrames rest := by rw [splitFramesF_eq (by omega)]

lemma splitFrames_stop {s : List Nat}
    (h : read_frame_into s = .ok none ∨ ∃ e, read_frame_into s = .error e) :
    splitFrames s = [] := by
  show splitFramesF (s.length + 1) s = []
  simp only [splitFramesF]
  rcases h with h | ⟨e, h⟩ <;> rw [h]

lemma streamResultF_eq : ∀ {fuel : Nat} {s : List Nat}, s.length < fuel →
    streamResultF fuel s = streamResult s := by
  intro fuel
  induction fuel using Nat.strong_induction_on with
  | _ fuel ih =>
    intro s h
    cases fuel with
    | zero => omega
    | succ fuel =>
      unfold streamResult
      simp only [streamResultF]
      cases hr : read_frame_into s with
      | error e => rfl
      | ok o =>
        cases o with
        | none => rfl
        | some p =>
          obtain ⟨f, rest⟩ := p
          have hlt := read_frame_into_rest_lt hr
          have h1 : streamResultF fuel rest = streamResultF (rest.length + 1) rest := by
            have := ih fuel (by omega) (s := rest) (by omega)
            rwa [streamResult] at this
          have h2 : streamResultF s.length rest = streamResultF (rest.length + 1) rest := by
            have := ih s.length (by omega) (s := rest) hlt
            rwa [streamResult] at this
          simp only [h1, h2]

lemma streamResult_some {s f rest : List Nat} (h : read_frame_into s = .ok (some (f, rest))) :
    streamResult s = streamResult rest := by
  have hlt := read_frame_into_rest_lt h
  calc streamResult s = streamResultF (s.length + 1) s := rfl
    _ = streamResultF s.length rest := by simp only [streamResultF]; rw [h]
    _ = streamResult rest := streamResultF_eq (by omega)

lemma streamResult_none {s : List Nat} (h : read_frame_into s = .ok none) :
    streamResult s = .ok () := by
  show streamResultF (s.length + 1) s = .ok ()
  simp only [streamResultF]
  rw [h]

lemma streamResult_error {s : List Nat} {e : IoErr} (h : read_frame_into s = .error e) :
    streamResult s = .error e := by
  show streamResultF (s.length + 1) s = .error e
  simp only [streamResultF]
  rw [h]

lemma encode_frame_length (p : List Nat) : (encode_frame p).length = p.length + 14 := by
  simp [encode_frame, bgzfMagic, le16, le32]

lemma frameLen_cons (x y : Nat) (t : List Nat) :
    frameLen (31 :: 139 :: 8 :: 4 :: x :: y :: t) = max (x + 256 * y) 6 := rfl

lemma encode_frame_shape (p rest : List Nat) :
    encode_frame p ++ rest =
      31 :: 139 :: 8 :: 4 :: ((p.length + 14) % 256) :: ((p.length + 14) / 256 % 256) ::
        (p ++ le32 (crc32 p) ++ le32 (p.length % 4294967296) ++ rest) := by
  simp [encode_frame, bgzfMagic, le16, List.append_assoc]

lemma frameLen_encode (p rest : List Nat) (hlen : p.length + 14 ≤ 65535) :
    frameLen (encode_frame p ++ rest) = p.length + 14 := by
  rw [encode_frame_shape, frameLen_cons]
  have h1 : (p.length + 14) % 256 + 256 * ((p.length + 14) / 256 % 256) = p.length + 14 := by
    omega
  rw [h1]
  exact Nat.max_eq_left (by omega)

lemma read_frame_into_encode (p rest : List Nat) (hlen : p.length + 14 ≤ 65535) :
    read_frame_into (encode_frame p ++ rest) = .ok (some (encode_frame p, rest)) := by
  have hel : (encode_frame p).length = p.length + 14 := encode_frame_length p
  have hfl : frameLen (encode_frame p ++ rest) = p.length + 14 := frameLen_encode p rest hlen
  have hlen' : (encode_frame p ++ rest).length = p.length + 14 + rest.length := by
    simp [hel]
  have hne : (encode_frame p ++ rest).isEmpty = false := by
    rw [encode_frame_shape]
    rfl
  unfold read_frame_into
  rw [hne, hfl, hlen']
  simp only [Bool.false_eq_true, if_false]
  rw [if_neg (by omega), if_neg (by omega), List.take_left' hel, List.drop_left' hel]

lemma le32dec_le32 (n : Nat) : le32dec (le32 n) = n % 4294967296 := by
  show n % 256 + 256 * (n / 256 % 256) + 65536 * (n / 65536 % 256) +
      16777216 * (n / 16777216 % 256) = n % 4294967296
  omega

lemma parse_block_encode (p : List Nat) (hb : ∀ b ∈ p, b < 256)
    (hlen : p.length + 14 ≤ 65535) : parse_block (encode_frame p) = .ok (mkBlock p) := by
  have hel : (encode_frame p).length = p.length + 14 := encode_frame_length p
  have hassoc4 : encode_frame p =
      bgzfMagic ++ (le16 (p.length + 14) ++ (p ++
        (le32 (crc32 p) ++ le32 (p.length % 4294967296)))) := by
    simp [encode_frame, List.append_assoc]
  have htake4 : (encode_frame p).take 4 = bgzfMagic := by
    rw [hassoc4]
    exact List.take_left' rfl
  have hassoc6 : encode_frame p =
      (bgzfMagic ++ le16 (p.length + 14)) ++ (p ++
        (le32 (crc32 p) ++ le32 (p.length % 4294967296))) := by
    simp [encode_frame, List.append_assoc]
  have hdrop6 : (encode_frame p).drop 6 =
      p ++ (le32 (crc32 p) ++ le32 (p.length % 4294967296)) := by
    rw [hassoc6]
    exact List.drop_left' (by simp [bgzfMagic, le16])
  have hpayload : ((encode_frame p).drop 6).take ((encode_frame p).length - 14) = p := by
    rw [hdrop6, hel]
    have h14 : p.length + 14 - 14 = p.length := by omega
    rw [h14]
    exact List.take_left' rfl
  have hassocTr : encode_frame p =
      ((bgzfMagic ++ le16 (p.length + 14)) ++ p) ++
        (le32 (crc32 p) ++ le32 (p.length % 4294967296)) := by
    simp [encode_frame, List.append_assoc]
  have htrailer : (encode_frame p).drop ((encode_frame p).length - 8) =
      le32 (crc32 p) ++ le32 (p.length % 4294967296) := by
    rw [hel, hassocTr]
    refine List.drop_left' ?_
    simp [bgzfMagic, le16]
  have hcrc : le32dec (((encode_frame p).drop ((encode_frame p).length - 8)).take 4) =
      crc32 p := by
    rw [htrailer, List.take_left' (by simp [le32]), le32dec_le32]
    exact Nat.mod_eq_of_lt (crc32_lt hb)
  have hisize : le32dec (((encode_frame p).drop ((encode_frame p).length - 8)).drop 4) =
      p.length % 4294967296 := by
    rw [htrailer, List.drop_left' (by simp [le32]), le32dec_le32]
    omega
  unfold parse_block
  rw [if_neg (fun hne => hne htake4), if_neg (by rw [hel]; omega)]
  simp only [hpayload, hcrc, hisize]
  rw [if_neg (by omega), if_neg (by omega), hel]
  rfl

lemma splitFrames_encodeAll (ps : List (List Nat)) (h : ∀ p ∈ ps, p.length + 14 ≤ 65535)
    (t : List Nat) :
    splitFrames (encodeAll ps ++ t) = ps.map encode_frame ++ splitFrames t := by
  induction ps with
  | nil => simp [encodeAll]
  | cons p ps ih =>
    have hp : p.length + 14 ≤ 65535 := h p (by simp)
    have hshape : encodeAll (p :: ps) ++ t = encode_frame p ++ (encodeAll ps ++ t) := by
      simp [encodeAll, List.append_assoc]
    rw [hshape, splitFrames_some (read_frame_into_encode p _ hp),
      ih (fun q hq => h q (by simp [hq]))]
    simp

lemma streamResult_encodeAll (ps : List (List Nat)) (h : ∀ p ∈ ps, p.length + 14 ≤ 65535)
    (t : List Nat) : streamResult (encodeAll ps ++ t) = streamResult t := by
  induction ps with
  | nil => simp [encodeAll]
  | cons p ps ih =>
    have hp : p.length + 14 ≤ 65535 := h p (by simp)
    have hshape : encodeAll (p :: ps) ++ t = encode_frame p ++ (encodeAll ps ++ t) := by
      simp [encodeAll, List.append_assoc]
    rw [hshape, streamResult_some (read_frame_into_encode p _ hp),
      ih (fun q hq => h q (by simp [hq]))]

lemma read_frame_into_short {t : List Nat} (hne : t ≠ []) (h : t.length < 6) :
    read_frame_into t = .error .unexpectedEof := by
  unfold read_frame_into
  rw [if_neg (by simp [hne]), if_pos h]

lemma splitFrames_short {t : List Nat} (h : t.length < 6) : splitFrames t = [] := by
  rcases eq_or_ne t [] with rfl | hne
  · rfl
  · exact splitFrames_stop (Or.inr ⟨_, read_frame_into_short hne h⟩)

lemma streamResult_short {t : List Nat} (hne : t ≠ []) (h : t.length < 6) :
    streamResult t = .error .unexpectedEof :=
  streamResult_error (read_frame_into_short hne h)

/-!
Small-step model of the multithreaded reader pipeline
(noodles-bgzf/src/multithreaded_reader.rs).

The producer loop of `spawn_reader` is split into its blocking points: receiving a
buffer from the recycle channel, reading one raw frame, sending the (buffer, one-shot
sender) pair on the bounded inflate channel, and sending the paired one-shot receiver
on the bounded read channel. Each of the `worker_count` inflater threads of
`spawn_inflaters` takes the front pair of the shared inflate channel and later
completes it, filling the pair's one-shot cell with `parse_block`'s result. The
consumer (`recv_buffer`) pops the front receiver of the read channel and blocks until
its cell is filled. Buffers are tracked by count; the consumer always owns one active
buffer in addition to the pool's buffers, and returns its previous buffer to the
bounded recycle channel on every successful receive. A schedule is an arbitrary list
of labels; disabled labels leave the state unchanged, so quantifying over all label
lists quantifies over all interleavings and completion orders.
-/

/-- Producer thread control point in the pipeline. -/
inductive Phase where
  | idle
  | readFrame
  | sendInflate (f : List Nat)
  | sendRead (i : Nat)
  | done (r : Except IoErr Unit)
  deriving DecidableEq

/-- Global state of the multithreaded reader pipeline. `n` is the worker count, which
is also the capacity of the three channels and the number of seeded buffers;
`cells` holds the contents of each block's one-shot result channel, keyed by the order
in which the producer dispatched the blocks; `received` is the sequence of results the
consumer has obtained so far. -/
structure PipeState where
  n : Nat
  stream0 : List Nat
  streamRest : List Nat
  phase : Phase
  dispatched : Nat
  inflateQ : List (Nat × List Nat)
  working : List (Nat × List Nat)
  cells : Nat → Option (Except IoErr Block)
  readQ : List Nat
  recycle : Nat
  received : List (Except IoErr Block)

/-- Initial pipeline state built by `with_worker_count`: `n` buffers seeded into the
recycle channel, all channels empty, producer about to receive its first buffer. -/
def initPipe (n : Nat) (s : List Nat) : PipeState :=
  { n := n, stream0 := s, streamRest := s, phase := .idle, dispatched := 0,
    inflateQ := [], working := [], cells := fun _ => none, readQ := [], recycle := n,
    received := [] }

/-- Scheduling labels: producer steps, a worker taking the front inflate-channel pair,
a worker completing a held pair (identified by the split of the worker pool around
it, so any completion order can be scheduled), and the consumer receiving the next
result in read order. -/
inductive Lab where
  | pRecv
  | pRead
  | pSendInflate
  | pSendRead
  | wTake
  | wDone (a : List (Nat × List Nat)) (j : Nat × List Nat) (b : List (Nat × List Nat))
  | cRecv
  deriving DecidableEq

/-- One enabled transition of the pipeline; `none` when the label is not enabled. -/
def stepPipe (s : PipeState) (l : Lab) : Option PipeState :=
  match l with
  | .pRecv =>
    match s.phase with
    | .idle =>
      if 0 < s.recycle then some { s with recycle := s.recycle - 1, phase := .readFrame }
      else none
    | _ => none
  | .pRead =>
    match s.phase with
    | .readFrame =>
      match read_frame_into s.streamRest with
      | .error e => some { s with phase := .done (.error e) }
      | .ok none => some { s with phase := .done (.ok ()) }
      | .ok (some (f, rest)) => some { s with streamRest := rest, phase := .sendInflate f }
    | _ => none
  | .pSendInflate =>
    match s.phase with
    | .sendInflate f =>
      if s.inflateQ.length < s.n then
        some { s with inflateQ := s.inflateQ ++ [(s.dispatched, f)],
                      dispatched := s.dispatched + 1,
                      phase := .sendRead s.dispatched }
      else none
    | _ => none
  | .pSendRead =>
    match s.phase with
    | .sendRead i =>
      if s.readQ.length < s.n then some { s with readQ := s.readQ ++ [i], phase := .idle }
      else none
    | _ => none
  | .wTake =>
    match s.inflateQ with
    | [] => none
    | j :: rest =>
      if s.working.length < s.n then
        some { s with inflateQ := rest, working := s.working ++ [j] }
      else none
  | .wDone a j b =>
    if s.working = a ++ j :: b then
      some { s with working := a ++ b,
                    cells := fun x => if x = j.1 then some (parse_block j.2) else s.cells x }
    else none
  | .cRecv =>
    match s.readQ with
    | [] => none
    | i :: rest =>
      match s.cells i with
      | none => none
      | some (.ok b) =>
        if s.recycle < s.n then
          some { s with readQ := rest, received := s.received ++ [.ok b],
                        recycle := s.recycle + 1 }
        else none
      | some (.error e) =>
        some { s with readQ := rest, received := s.received ++ [.error e] }

/-- Runs the pipeline under a schedule; disabled labels leave the state unchanged. -/
def runPipe (s : PipeState) : List Lab → PipeState
  | [] => s
  | l :: ls => runPipe ((stepPipe s l).getD s) ls

/-- Number of buffers currently held by the producer thread (one while it is filling
or dispatching a frame). -/
def pHeldCount (s : PipeState) : Nat :=
  match s.phase with
  | .readFrame => 1
  | .sendInflate _ => 1
  | _ => 0

/-- One while the producer is between its inflate-channel send and read-channel
send. -/
def sendReadBit (s : PipeState) : Nat :=
  match s.phase with
  | .sendRead _ => 1
  | _ => 0

/-- One while the producer holds a frame it has read but not yet dispatched. -/
def sendInflateBit (s : PipeState) : Nat :=
  match s.phase with
  | .sendInflate _ => 1
  | _ => 0

/-- Number of frames the producer has read from the underlying stream so far. -/
def framesRead (s : PipeState) : Nat := s.dispatched + sendInflateBit s

/-- Identifier one past the last receiver the producer has pushed onto the read
channel. -/
def topId (s : PipeState) : Nat :=
  match s.phase with
  | .sendRead _ => s.dispatched - 1
  | _ => s.dispatched

/-- Number of filled one-shot cells whose receivers the consumer has not yet
consumed. -/
def someCellCount (s : PipeState) : Nat :=
  (List.range' s.received.length (s.dispatched - s.received.length)).countP
    (fun i => (s.cells i).isSome)

/-- Number of filled one-shot cells holding a decoded buffer that the consumer has
not yet consumed. -/
def okCellCount (s : PipeState) : Nat :=
  (List.range' s.received.length (s.dispatched - s.received.length)).countP
    (fun i => match s.cells i with | some (.ok _) => true | _ => false)

/-- Number of Buffers currently outside the recycle channel: the producer's, those in
the inflate channel, those held by workers, those parked in filled one-shot cells,
plus the consumer's active buffer. -/
def buffersOutsidePool (s : PipeState) : Nat :=
  pHeldCount s + s.inflateQ.length + s.working.length + okCellCount s + 1

/-- Number of frames in flight: read from the underlying stream but not yet consumed
by the reader's consumer side. -/
def framesInFlight (s : PipeState) : Nat := framesRead s - s.received.length

/-- Reachability invariant of the pipeline: the producer has consumed exactly the
frames it has dispatched, the read channel holds the pending receivers in dispatch
order, every job and every filled cell belongs to the frame of its dispatch index,
the consumer's received results are exactly the parse results of the first frames of
the stream, and the channel occupancies balance against the worker count. -/
structure Inv (s : PipeState) : Prop where
  hSplit : splitFrames s.streamRest = (splitFrames s.stream0).drop (framesRead s)
  hRes : streamResult s.streamRest = streamResult s.stream0
  hSendInflate : ∀ f, s.phase = .sendInflate f →
      (splitFrames s.stream0)[s.dispatched]? = some f
  hSendRead : ∀ i, s.phase = .sendRead i → i + 1 = s.dispatched
  hDone : ∀ r, s.phase = .done r → r = streamResult s.stream0
  hTop : s.received.length ≤ topId s
  hReadQ : s.readQ = List.range' s.received.length (topId s - s.received.length)
  hJobs : ∀ p ∈ s.inflateQ ++ s.working,
      (splitFrames s.stream0)[p.1]? = some p.2 ∧ s.received.length ≤ p.1 ∧
        p.1 < s.dispatched ∧ s.cells p.1 = none
  hNodup : ((s.inflateQ ++ s.working).map Prod.fst).Nodup
  hCells : ∀ i res, s.cells i = some res →
      ∃ f, (splitFrames s.stream0)[i]? = some f ∧ res = parse_block f ∧ i < s.dispatched
  hReceived : s.received = ((splitFrames s.stream0).map parse_block).take s.received.length
  hCount : s.inflateQ.length + s.working.length + someCellCount s =
      s.dispatched - s.received.length
  hBuf : s.recycle + pHeldCount s + s.readQ.length + sendReadBit s ≤ s.n

lemma inv_initPipe (n : Nat) (s : List Nat) : Inv (initPipe n s) := by
  refine ⟨?_, ?_, ?_, ?_, ?_, ?_, ?_, ?_, ?_, ?_, ?_, ?_, ?_⟩ <;>
    simp [initPipe, framesRead, sendInflateBit, sendReadBit, topId, pHeldCount,
      someCellCount]

lemma inv_pRecv {s : PipeState} (hI : Inv s) (hp : s.phase = .idle) (hr : 0 < s.recycle) :
    Inv { s with recycle := s.recycle - 1, phase := .readFrame } := by
  obtain ⟨h1, h2, h3, h4, h5, h6, h7, h8, h9, h10, h11, h12, h13⟩ := hI
  refine ⟨?_, ?_, ?_, ?_, ?_, ?_, ?_, ?_, ?_, ?_, ?_, ?_, ?_⟩
  · simpa [framesRead, sendInflateBit, hp] using h1
  · exact h2
  · intro f hf
    simp at hf
  · intro i hi
    simp at hi
  · intro r hrr
    simp at hrr
  · simpa [topId, hp] using h6
  · simpa [topId, hp] using h7
  · exact h8
  · exact h9
  · exact h10
  · exact h11
  · simpa [someCellCount] using h12
  · have := h13
    simp only [pHeldCount, sendReadBit, hp] at this
    simp only [pHeldCount, sendReadBit]
    omega

lemma inv_pRead_error {s : PipeState} (hI : Inv s) (hp : s.phase = .readFrame)
    {e : IoErr} (hr : read_frame_into s.streamRest = .error e) :
    Inv { s with phase := .done (.error e) } := by
  obtain ⟨h1, h2, h3, h4, h5, h6, h7, h8, h9, h10, h11, h12, h13⟩ := hI
  refine ⟨?_, ?_, ?_, ?_, ?_, ?_, ?_, ?_, ?_, ?_, ?_, ?_, ?_⟩
  · simpa [framesRead, sendInflateBit, hp] using h1
  · exact h2
  · intro f hf
    simp at hf
  · intro i hi
    simp at hi
  · intro r hrr
    simp only [Phase.done.injEq] at hrr
    subst hrr
    rw [← h2, streamResult_error hr]
  · simpa [topId, hp] using h6
  · simpa [topId, hp] using h7
  · exact h8
  · exact h9
  · exact h10
  · exact h11
  · simpa [someCellCount] using h12
  · have := h13
    simp only [pHeldCount, sendReadBit, hp] at this
    simp only [pHeldCount, sendReadBit]
    omega

lemma inv_pRead_none {s : PipeState} (hI : Inv s) (hp : s.phase = .readFrame)
    (hr : read_frame_into s.streamRest = .ok none) :
    Inv { s with phase := .done (.ok ()) } := by
  obtain ⟨h1, h2, h3, h4, h5, h6, h7, h8, h9, h10, h11, h12, h13⟩ := hI
  refine ⟨?_, ?_, ?_, ?_, ?_, ?_, ?_, ?_, ?_, ?_, ?_, ?_, ?_⟩
  · simpa [framesRead, sendInflateBit, hp] using h1
  · exact h2
  · intro f hf
    simp at hf
  · intro i hi
    simp at hi
  · intro r hrr
    simp only [Phase.done.injEq] at hrr
    subst hrr
    rw [← h2, streamResult_none hr]
  · simpa [topId, hp] using h6
  · simpa [topId, hp] using h7
  · exact h8
  · exact h9
  · exact h10
  · exact h11
  · simpa [someCellCount] using h12
  · have := h13
    simp only [pHeldCount, sendReadBit, hp] at this
    simp only [pHeldCount, sendReadBit]
    omega

lemma inv_pRead_some {s : PipeState} (hI : Inv s) (hp : s.phase = .readFrame)
    {f rest : List Nat} (hr : read_frame_into s.streamRest = .ok (some (f, rest))) :
    Inv { s with streamRest := rest, phase := .sendInflate f } := by
  obtain ⟨h1, h2, h3, h4, h5, h6, h7, h8, h9, h10, h11, h12, h13⟩ := hI
  have hfr : framesRead s = s.dispatched := by
    simp [framesRead, sendInflateBit, hp]
  have hcons : f :: splitFrames rest = (splitFrames s.stream0).drop s.dispatched := by
    rw [← hfr, ← h1, splitFrames_some hr]
  refine ⟨?_, ?_, ?_, ?_, ?_, ?_, ?_, ?_, ?_, ?_, ?_, ?_, ?_⟩
  · show splitFrames rest = (splitFrames s.stream0).drop (s.dispatched + 1)
    have : (splitFrames s.stream0).drop (s.dispatched + 1) =
        ((splitFrames s.stream0).drop s.dispatched).drop 1 := by
      rw [List.drop_drop]
    rw [this, ← hcons]
    rfl
  · show streamResult rest = streamResult s.stream0
    rw [← h2, streamResult_some hr]
  · intro g hg
    simp only [Phase.sendInflate.injEq] at hg
    subst hg
    have h0 : ((splitFrames s.stream0).drop s.dispatched)[0]? = some f := by
      rw [← hcons]
      simp
    rwa [List.getElem?_drop, Nat.add_zero] at h0
  · intro i hi
    simp at hi
  · intro r hrr
    simp at hrr
  · simpa [topId, hp] using h6
  · simpa [topId, hp] using h7
  · exact h8
  · exact h9
  · exact h10
  · exact h11
  · simpa [someCellCount] using h12
  · have := h13
    simp only [pHeldCount, sendReadBit, hp] at this
    simp only [pHeldCount, sendReadBit]
    omega

lemma inv_pSendInflate {s : PipeState} (hI : Inv s) {f : List Nat}
    (hp : s.phase = .sendInflate f) (hcap : s.inflateQ.length < s.n) :
    Inv { s with inflateQ := s.inflateQ ++ [(s.dispatched, f)],
                 dispatched := s.dispatched + 1,
                 phase := .sendRead s.dispatched } := by
  obtain ⟨h1, h2, h3, h4, h5, h6, h7, h8, h9, h10, h11, h12, h13⟩ := hI
  have hDf : (splitFrames s.stream0)[s.dispatched]? = some f := h3 f hp
  have hRD : s.received.length ≤ s.dispatched := by
    have := h6
    simp only [topId, hp] at this
    exact this
  have hcellD : s.cells s.dispatched = none := by
    cases hc : s.cells s.dispatched with
    | none => rfl
    | some res =>
      obtain ⟨_, _, _, hlt⟩ := h10 _ _ hc
      omega
  refine ⟨?_, ?_, ?_, ?_, ?_, ?_, ?_, ?_, ?_, ?_, ?_, ?_, ?_⟩
  · have := h1
    simp only [framesRead, sendInflateBit, hp] at this
    simpa [framesRead, sendInflateBit] using this
  · exact h2
  · intro g hg
    simp at hg
  · intro i hi
    simp only [Phase.sendRead.injEq] at hi
    subst hi
    rfl
  · intro r hrr
    simp at hrr
  · show s.received.length ≤ topId _
    simp only [topId]
    omega
  · show s.readQ = List.range' s.received.length (topId _ - s.received.length)
    simp only [topId]
    have harith : s.dispatched + 1 - 1 = s.dispatched := rfl
    rw [harith]
    have := h7
    simp only [topId, hp] at this
    exact this
  · intro p hpmem
    simp only [List.append_assoc, List.singleton_append, List.mem_append,
      List.mem_cons] at hpmem
    rcases hpmem with hin | hj | hw
    · obtain ⟨ha, hb, hc, hd⟩ := h8 p (List.mem_append.mpr (Or.inl hin))
      exact ⟨ha, hb, by show p.1 < s.dispatched + 1; omega, hd⟩
    · subst hj
      exact ⟨hDf, hRD, by show s.dispatched < s.dispatched + 1; omega, hcellD⟩
    · obtain ⟨ha, hb, hc, hd⟩ := h8 p (List.mem_append.mpr (Or.inr hw))
      exact ⟨ha, hb, by show p.1 < s.dispatched + 1; omega, hd⟩
  · show (((s.inflateQ ++ [(s.dispatched, f)]) ++ s.working).map Prod.fst).Nodup
    simp only [List.append_assoc, List.singleton_append, List.map_append, List.map_cons]
    rw [List.nodup_middle, List.nodup_cons]
    constructor
    · intro hmem
      rw [← List.map_append] at hmem
      obtain ⟨p, hp', hfst⟩ := List.mem_map.mp hmem
      have := (h8 p hp').2.2.1
      omega
    · rwa [← List.map_append]
  · intro i res hc
    obtain ⟨g, hg1, hg2, hg3⟩ := h10 i res hc
    exact ⟨g, hg1, hg2, by show i < s.dispatched + 1; omega⟩
  · exact h11
  · show (s.inflateQ ++ [(s.dispatched, f)]).length + s.working.length +
        someCellCount _ = s.dispatched + 1 - s.received.length
    simp only [someCellCount] at h12 ⊢
    simp only [List.length_append, List.length_cons, List.length_nil]
    have hr1 : s.dispatched + 1 - s.received.length =
        (s.dispatched - s.received.length) + 1 := by omega
    rw [hr1, List.range'_concat, List.countP_append]
    have hd : s.received.length + 1 * (s.dispatched - s.received.length) =
        s.dispatched := by omega
    rw [hd]
    simp only [List.countP_cons, List.countP_nil, hcellD, Option.isSome_none,
      Bool.false_eq_true, if_false]
    omega
  · have := h13
    simp only [pHeldCount, sendReadBit, hp] at this
    simp only [pHeldCount, sendReadBit]
    omega

lemma inv_pSendRead {s : PipeState} (hI : Inv s) {i : Nat}
    (hp : s.phase = .sendRead i) (hcap : s.readQ.length < s.n) :
    Inv { s with readQ := s.readQ ++ [i], phase := .idle } := by
  obtain ⟨h1, h2, h3, h4, h5, h6, h7, h8, h9, h10, h11, h12, h13⟩ := hI
  have hiD : i + 1 = s.dispatched := h4 i hp
  have hRtop : s.received.length ≤ s.dispatched - 1 := by
    have := h6
    simp only [topId, hp] at this
    exact this
  refine ⟨?_, ?_, ?_, ?_, ?_, ?_, ?_, ?_, ?_, ?_, ?_, ?_, ?_⟩
  · have := h1
    simp only [framesRead, sendInflateBit, hp] at this
    simpa [framesRead, sendInflateBit] using this
  · exact h2
  · intro g hg
    simp at hg
  · intro j hj
    simp at hj
  · intro r hrr
    simp at hrr
  · show s.received.length ≤ topId _
    simp only [topId]
    omega
  · show s.readQ ++ [i] = List.range' s.received.length (topId _ - s.received.length)
    simp only [topId]
    have := h7
    simp only [topId, hp] at this
    rw [this]
    have harith : s.dispatched - s.received.length =
        (s.dispatched - 1 - s.received.length) + 1 := by omega
    rw [harith, List.range'_concat]
    congr 1
    congr 1
    omega
  · exact h8
  · exact h9
  · exact h10
  · exact h11
  · show s.inflateQ.length + s.working.length + someCellCount _ =
        s.dispatched - s.received.length
    have hscc : someCellCount { s with readQ := s.readQ ++ [i], phase := Phase.idle } =
        someCellCount s := rfl
    rw [hscc]
    exact h12
  · have := h13
    simp only [pHeldCount, sendReadBit, hp] at this
    simp only [pHeldCount, sendReadBit, List.length_append, List.length_cons,
      List.length_nil]
    omega

lemma inv_wTake {s : PipeState} (hI : Inv s) {j : Nat × List Nat}
    {rest : List (Nat × List Nat)} (hq : s.inflateQ = j :: rest)
    (hcap : s.working.length < s.n) :
    Inv { s with inflateQ := rest, working := s.working ++ [j] } := by
  obtain ⟨h1, h2, h3, h4, h5, h6, h7, h8, h9, h10, h11, h12, h13⟩ := hI
  have hperm : List.Perm (((j :: rest) ++ s.working).map Prod.fst)
      ((rest ++ (s.working ++ [j])).map Prod.fst) := by
    refine List.Perm.map Prod.fst ?_
    have e1 : (j :: rest) ++ s.working = j :: (rest ++ s.working) := by simp
    have e2 : rest ++ (s.working ++ [j]) = (rest ++ s.working) ++ [j] := by
      simp [List.append_assoc]
    rw [e1, e2]
    exact (List.perm_append_singleton _ _).symm
  refine ⟨h1, h2, h3, h4, h5, h6, h7, ?_, ?_, h10, h11, ?_, h13⟩
  · intro p hpmem
    refine h8 p ?_
    rw [hq]
    simp only [List.mem_append, List.mem_cons] at hpmem ⊢
    tauto
  · have h9' : (((j :: rest) ++ s.working).map Prod.fst).Nodup := by
      rwa [← hq]
    exact hperm.nodup h9'
  · show rest.length + (s.working ++ [j]).length + someCellCount _ =
        s.dispatched - s.received.length
    have hscc : someCellCount { s with inflateQ := rest, working := s.working ++ [j] } =
        someCellCount s := rfl
    rw [hscc]
    have hlen : s.inflateQ.length = rest.length + 1 := by rw [hq]; rfl
    simp only [List.length_append, List.length_cons, List.length_nil]
    omega

lemma countP_update_some {A : Type} {l : List Nat} {c : Nat → Option A} {i : Nat} (v : A)
    (hnd : l.Nodup) (hi : i ∈ l) (hci : c i = none) :
    (l.countP fun j => (if j = i then some v else c j).isSome) =
      l.countP (fun j => (c j).isSome) + 1 := by
  induction l with
  | nil => cases hi
  | cons a t ih =>
    rw [List.countP_cons, List.countP_cons]
    rcases List.mem_cons.mp hi with heq | hit
    · subst heq
      have hat : i ∉ t := (List.nodup_cons.mp hnd).1
      have ht : (t.countP fun j => (if j = i then some v else c j).isSome) =
          t.countP (fun j => (c j).isSome) := by
        apply List.countP_congr
        intro x hx
        have hxa : x ≠ i := fun h => hat (h ▸ hx)
        simp [hxa]
      rw [ht]
      simp [hci]
    · have hna : a ≠ i := by
        rintro rfl
        exact (List.nodup_cons.mp hnd).1 hit
      rw [ih (List.nodup_cons.mp hnd).2 hit]
      have hite : (if a = i then some v else c a) = c a := by simp [hna]
      rw [hite]
      omega

lemma inv_wDone {s : PipeState} (hI : Inv s) {a b : List (Nat × List Nat)}
    {j : Nat × List Nat} (hw : s.working = a ++ j :: b) :
    Inv { s with working := a ++ b,
                 cells := fun x => if x = j.1 then some (parse_block j.2) else s.cells x } := by
  obtain ⟨h1, h2, h3, h4, h5, h6, h7, h8, h9, h10, h11, h12, h13⟩ := hI
  have hjmem : j ∈ s.inflateQ ++ s.working := by
    rw [hw]
    simp
  obtain ⟨hjframe, hjR, hjD, hjcell⟩ := h8 j hjmem
  have hnodup' : ((s.inflateQ ++ a) ++ j :: b).map Prod.fst |>.Nodup := by
    have : s.inflateQ ++ s.working = (s.inflateQ ++ a) ++ j :: b := by
      rw [hw, List.append_assoc]
    rwa [this] at h9
  have hjnotin : j.1 ∉ ((s.inflateQ ++ (a ++ b)).map Prod.fst) := by
    simp only [List.map_append, List.map_cons] at hnodup'
    rw [List.nodup_middle, List.nodup_cons] at hnodup'
    intro hmem
    apply hnodup'.1
    simp only [List.map_append] at hmem ⊢
    simpa [List.append_assoc] using hmem
  have hsub : ((s.inflateQ ++ (a ++ b)).map Prod.fst).Nodup := by
    simp only [List.map_append, List.map_cons] at hnodup' ⊢
    rw [List.nodup_middle, List.nodup_cons] at hnodup'
    simpa [List.append_assoc] using hnodup'.2
  refine ⟨h1, h2, h3, h4, h5, h6, h7, ?_, ?_, ?_, h11, ?_, h13⟩
  · intro p hpmem
    have hpold : p ∈ s.inflateQ ++ s.working := by
      rw [hw]
      simp only [List.mem_append, List.mem_cons] at hpmem ⊢
      tauto
    obtain ⟨ha', hb', hc', hd'⟩ := h8 p hpold
    have hpne : p.1 ≠ j.1 := by
      intro he
      exact hjnotin (he ▸ List.mem_map_of_mem Prod.fst hpmem)
    refine ⟨ha', hb', hc', ?_⟩
    show (if p.1 = j.1 then some (parse_block j.2) else s.cells p.1) = none
    rw [if_neg hpne]
    exact hd'
  · exact hsub
  · intro i res hc
    by_cases hij : i = j.1
    · subst hij
      have hc2 : some (parse_block j.2) = some res := by
        rw [← hc]
        simp
      injection hc2 with hc2
      exact ⟨j.2, hjframe, hc2.symm, hjD⟩
    · have hc2 : s.cells i = some res := by
        rw [← hc]
        simp [hij]
      exact h10 i res hc2
  · show s.inflateQ.length + (a ++ b).length + someCellCount _ =
        s.dispatched - s.received.length
    simp only [someCellCount]
    have hcount : ((List.range' s.received.length (s.dispatched - s.received.length)).countP
        fun x => (if x = j.1 then some (parse_block j.2) else s.cells x).isSome) =
        ((List.range' s.received.length (s.dispatched - s.received.length)).countP
          fun x => (s.cells x).isSome) + 1 := by
      refine countP_update_some _ (List.nodup_range' _ _) ?_ hjcell
      rw [List.mem_range'_1]
      omega
    rw [hcount]
    have := h12
    simp only [someCellCount] at this
    have hwlen : s.working.length = a.length + b.length + 1 := by
      rw [hw]
      simp only [List.length_append, List.length_cons]
      omega
    simp only [List.length_append]
    omega

lemma inv_cRecv_ok {s : PipeState} (hI : Inv s) {i : Nat} {rest : List Nat}
    (hq : s.readQ = i :: rest) {b : Block} (hc : s.cells i = some (.ok b))
    (hcap : s.recycle < s.n) :
    Inv { s with readQ := rest, received := s.received ++ [.ok b],
                 recycle := s.recycle + 1 } := by
  obtain ⟨h1, h2, h3, h4, h5, h6, h7, h8, h9, h10, h11, h12, h13⟩ := hI
  have hlen1 : 1 ≤ topId s - s.received.length := by
    by_contra hcon
    have h0 : topId s - s.received.length = 0 := by omega
    rw [h0] at h7
    rw [hq] at h7
    simp at h7
  have hcons : s.readQ = s.received.length ::
      List.range' (s.received.length + 1) (topId s - s.received.length - 1) := by
    rw [h7]
    have hr := List.range'_succ s.received.length (topId s - s.received.length - 1) 1
    rw [← hr]
    congr 1
    omega
  have hiR : i = s.received.length := by
    rw [hq] at hcons
    exact (List.cons.injEq _ _ _ _ ▸ hcons).1
  have hrest : rest = List.range' (s.received.length + 1)
      (topId s - s.received.length - 1) := by
    rw [hq] at hcons
    exact (List.cons.injEq _ _ _ _ ▸ hcons).2
  subst hiR
  obtain ⟨f, hf, hres, hiD⟩ := h10 _ _ hc
  refine ⟨h1, h2, h3, h4, h5, ?_, ?_, ?_, h9, h10, ?_, ?_, ?_⟩
  · show (s.received ++ [Except.ok b]).length ≤ topId _
    simp only [List.length_append, List.length_cons, List.length_nil, Nat.zero_add]
    show s.received.length + 1 ≤ topId s
    omega
  · show rest = List.range' (s.received ++ [Except.ok b]).length
        (topId _ - (s.received ++ [Except.ok b]).length)
    simp only [List.length_append, List.length_cons, List.length_nil, Nat.zero_add]
    show rest = List.range' (s.received.length + 1) (topId s - (s.received.length + 1))
    have harith : topId s - (s.received.length + 1) =
        topId s - s.received.length - 1 := by omega
    rw [hrest, harith]
  · intro p hpmem
    obtain ⟨ha', hb', hc', hd'⟩ := h8 p hpmem
    have hpne : p.1 ≠ s.received.length := by
      intro he
      rw [he] at hd'
      rw [hd'] at hc
      cases hc
    refine ⟨ha', ?_, hc', hd'⟩
    show (s.received ++ [Except.ok b]).length ≤ p.1
    simp only [List.length_append, List.length_cons, List.length_nil, Nat.zero_add]
    omega
  · show s.received ++ [Except.ok b] =
        ((splitFrames s.stream0).map parse_block).take (s.received ++ [Except.ok b]).length
    simp only [List.length_append, List.length_cons, List.length_nil, Nat.zero_add]
    rw [List.take_succ, ← h11]
    congr 1
    have hmap : ((splitFrames s.stream0).map parse_block)[s.received.length]? =
        some (parse_block f) := by
      rw [List.getElem?_map, hf]
      rfl
    rw [hmap, ← hres]
    rfl
  · show s.inflateQ.length + s.working.length + someCellCount _ =
        s.dispatched - (s.received ++ [Except.ok b]).length
    simp only [someCellCount, List.length_append, List.length_cons, List.length_nil,
      Nat.zero_add]
    have h12x := h12
    simp only [someCellCount] at h12x
    have hDR : s.dispatched - s.received.length =
        (s.dispatched - (s.received.length + 1)) + 1 := by omega
    rw [hDR, List.range'_succ, List.countP_cons] at h12x
    simp only [hc, Option.isSome_some, if_true] at h12x
    omega
  · have h13x := h13
    have hql : s.readQ.length = rest.length + 1 := by
      rw [hq]
      rfl
    simp only [pHeldCount, sendReadBit] at h13x ⊢
    omega

lemma inv_cRecv_err {s : PipeState} (hI : Inv s) {i : Nat} {rest : List Nat}
    (hq : s.readQ = i :: rest) {e : IoErr} (hc : s.cells i = some (.error e)) :
    Inv { s with readQ := rest, received := s.received ++ [.error e] } := by
  obtain ⟨h1, h2, h3, h4, h5, h6, h7, h8, h9, h10, h11, h12, h13⟩ := hI
  have hlen1 : 1 ≤ topId s - s.received.length := by
    by_contra hcon
    have h0 : topId s - s.received.length = 0 := by omega
    rw [h0] at h7
    rw [hq] at h7
    simp at h7
  have hcons : s.readQ = s.received.length ::
      List.range' (s.received.length + 1) (topId s - s.received.length - 1) := by
    rw [h7]
    have hr := List.range'_succ s.received.length (topId s - s.received.length - 1) 1
    rw [← hr]
    congr 1
    omega
  have hiR : i = s.received.length := by
    rw [hq] at hcons
    exact (List.cons.injEq _ _ _ _ ▸ hcons).1
  have hrest : rest = List.range' (s.received.length + 1)
      (topId s - s.received.length - 1) := by
    rw [hq] at hcons
    exact (List.cons.injEq _ _ _ _ ▸ hcons).2
  subst hiR
  obtain ⟨f, hf, hres, hiD⟩ := h10 _ _ hc
  refine ⟨h1, h2, h3, h4, h5, ?_, ?_, ?_, h9, h10, ?_, ?_, ?_⟩
  · show (s.received ++ [Except.error e]).length ≤ topId _
    simp only [List.length_append, List.length_cons, List.length_nil, Nat.zero_add]
    show s.received.length + 1 ≤ topId s
    omega
  · show rest = List.range' (s.received ++ [Except.error e]).length
        (topId _ - (s.received ++ [Except.error e]).length)
    simp only [List.length_append, List.length_cons, List.length_nil, Nat.zero_add]
    show rest = List.range' (s.received.length + 1) (topId s - (s.received.length + 1))
    have harith : topId s - (s.received.length + 1) =
        topId s - s.received.length - 1 := by omega
    rw [hrest, harith]
  · intro p hpmem
    obtain ⟨ha', hb', hc', hd'⟩ := h8 p hpmem
    have hpne : p.1 ≠ s.received.length := by
      intro he
      rw [he] at hd'
      rw [hd'] at hc
      cases hc
    refine ⟨ha', ?_, hc', hd'⟩
    show (s.received ++ [Except.error e]).length ≤ p.1
    simp only [List.length_append, List.length_cons, List.length_nil, Nat.zero_add]
    omega
  · show s.received ++ [Except.error e] =
        ((splitFrames s.stream0).map parse_block).take (s.received ++ [Except.error e]).length
    simp only [List.length_append, List.length_cons, List.length_nil, Nat.zero_add]
    rw [List.take_succ, ← h11]
    congr 1
    have hmap : ((splitFrames s.stream0).map parse_block)[s.received.length]? =
        some (parse_block f) := by
      rw [List.getElem?_map, hf]
      rfl
    rw [hmap, ← hres]
    rfl
  · show s.inflateQ.length + s.working.length + someCellCount _ =
        s.dispatched - (s.received ++ [Except.error e]).length
    simp only [someCellCount, List.length_append, List.length_cons, List.length_nil,
      Nat.zero_add]
    have h12x := h12
    simp only [someCellCount] at h12x
    have hDR : s.dispatched - s.received.length =
        (s.dispatched - (s.received.length + 1)) + 1 := by omega
    rw [hDR, List.range'_succ, List.countP_cons] at h12x
    simp only [hc, Option.isSome_some, if_true] at h12x
    omega
  · have h13x := h13
    have hql : s.readQ.length = rest.length + 1 := by
      rw [hq]
      rfl
    simp only [pHeldCount, sendReadBit] at h13x ⊢
    omega

lemma inv_stepPipe {s : PipeState} (hI : Inv s) (l : Lab) :
    Inv ((stepPipe s l).getD s) := by
  cases l with
  | pRecv =>
    cases hp : s.phase with
    | idle =>
      by_cases hr : 0 < s.recycle
      · simp only [stepPipe, hp, if_pos hr, Option.getD_some]
        exact inv_pRecv hI hp hr
      · simp only [stepPipe, hp, if_neg hr, Option.getD_none]
        exact hI
    | readFrame => simpa only [stepPipe, hp, Option.getD_none] using hI
    | sendInflate f => simpa only [stepPipe, hp, Option.getD_none] using hI
    | sendRead i => simpa only [stepPipe, hp, Option.getD_none] using hI
    | done r => simpa only [stepPipe, hp, Option.getD_none] using hI
  | pRead =>
    cases hp : s.phase with
    | readFrame =>
      cases hr : read_frame_into s.streamRest with
      | error e =>
        simp only [stepPipe, hp, hr, Option.getD_some]
        exact inv_pRead_error hI hp hr
      | ok o =>
        cases o with
        | none =>
          simp only [stepPipe, hp, hr, Option.getD_some]
          exact inv_pRead_none hI hp hr
        | some q =>
          obtain ⟨f, rest⟩ := q
          simp only [stepPipe, hp, hr, Option.getD_some]
          exact inv_pRead_some hI hp hr
    | idle => simpa only [stepPipe, hp, Option.getD_none] using hI
    | sendInflate f => simpa only [stepPipe, hp, Option.getD_none] using hI
    | sendRead i => simpa only [stepPipe, hp, Option.getD_none] using hI
    | done r => simpa only [stepPipe, hp, Option.getD_none] using hI
  | pSendInflate =>
    cases hp : s.phase with
    | sendInflate f =>
      by_cases hcap : s.inflateQ.length < s.n
      · simp only [stepPipe, hp, if_pos hcap, Option.getD_some]
        exact inv_pSendInflate hI hp hcap
      · simp only [stepPipe, hp, if_neg hcap, Option.getD_none]
        exact hI
    | idle => simpa only [stepPipe, hp, Option.getD_none] using hI
    | readFrame => simpa only [stepPipe, hp, Option.getD_none] using hI
    | sendRead i => simpa only [stepPipe, hp, Option.getD_none] using hI
    | done r => simpa only [stepPipe, hp, Option.getD_none] using hI
  | pSendRead =>
    cases hp : s.phase with
    | sendRead i =>
      by_cases hcap : s.readQ.length < s.n
      · simp only [stepPipe, hp, if_pos hcap, Option.getD_some]
        exact inv_pSendRead hI hp hcap
      · simp only [stepPipe, hp, if_neg hcap, Option.getD_none]
        exact hI
    | idle => simpa only [stepPipe, hp, Option.getD_none] using hI
    | readFrame => simpa only [stepPipe, hp, Option.getD_none] using hI
    | sendInflate f => simpa only [stepPipe, hp, Option.getD_none] using hI
    | done r => simpa only [stepPipe, hp, Option.getD_none] using hI
  | wTake =>
    cases hq : s.inflateQ with
    | nil => simpa only [stepPipe, hq, Option.getD_none] using hI
    | cons j rest =>
      by_cases hcap : s.working.length < s.n
      · simp only [stepPipe, hq, if_pos hcap, Option.getD_some]
        exact inv_wTake hI hq hcap
      · simp only [stepPipe, hq, if_neg hcap, Option.getD_none]
        exact hI
  | wDone a j b =>
    by_cases hw : s.working = a ++ j :: b
    · simp only [stepPipe, if_pos hw, Option.getD_some]
      exact inv_wDone hI hw
    · simp only [stepPipe, if_neg hw, Option.getD_none]
      exact hI
  | cRecv =>
    cases hq : s.readQ with
    | nil => simpa only [stepPipe, hq, Option.getD_none] using hI
    | cons i rest =>
      cases hc : s.cells i with
      | none => simpa only [stepPipe, hq, hc, Option.getD_none] using hI
      | some res =>
        cases res with
        | ok b =>
          by_cases hcap : s.recycle < s.n
          · simp only [stepPipe, hq, hc, if_pos hcap, Option.getD_some]
            exact inv_cRecv_ok hI hq hc hcap
          · simp only [stepPipe, hq, hc, if_neg hcap, Option.getD_none]
            exact hI
        | error e =>
          simp only [stepPipe, hq, hc, Option.getD_some]
          exact inv_cRecv_err hI hq hc

lemma inv_runPipe (s : PipeState) (hI : Inv s) (ls : List Lab) : Inv (runPipe s ls) := by
  induction ls generalizing s with
  | nil => exact hI
  | cons l ls ih => exact ih _ (inv_stepPipe hI l)

lemma stepPipe_consts {s s' : PipeState} {l : Lab} (h : stepPipe s l = some s') :
    s'.stream0 = s.stream0 ∧ s'.n = s.n := by
  cases l <;> simp only [stepPipe] at h <;> (repeat' split at h) <;>
    (cases h <;> exact ⟨rfl, rfl⟩)

lemma runPipe_consts (s : PipeState) (ls : List Lab) :
    (runPipe s ls).stream0 = s.stream0 ∧ (runPipe s ls).n = s.n := by
  induction ls generalizing s with
  | nil => exact ⟨rfl, rfl⟩
  | cons l ls ih =>
    rcases hs : stepPipe s l with _ | s'
    · simpa [runPipe, hs] using ih s
    · have hc := stepPipe_consts hs
      have hrest := ih s'
      simp only [runPipe, hs, Option.getD_some]
      exact ⟨hrest.1.trans hc.1, hrest.2.trans hc.2⟩

lemma inv_bounds {s : PipeState} (hI : Inv s) :
    buffersOutsidePool s ≤ s.n + 1 ∧ framesInFlight s ≤ s.n ∧
      s.inflateQ.length ≤ s.n ∧ s.readQ.length ≤ s.n ∧ s.recycle ≤ s.n := by
  obtain ⟨h1, h2, h3, h4, h5, h6, h7, h8, h9, h10, h11, h12, h13⟩ := hI
  have hok : okCellCount s ≤ someCellCount s := by
    unfold okCellCount someCellCount
    apply List.countP_mono_left
    intro x hx hpx
    cases hcx : s.cells x with
    | none =>
      rw [hcx] at hpx
      simp at hpx
    | some r => simp [hcx]
  have hql : s.readQ.length = topId s - s.received.length := by
    rw [h7]
    exact List.length_range' _ _ _
  unfold buffersOutsidePool framesInFlight framesRead
  cases hphase : s.phase with
  | idle =>
    simp only [pHeldCount, sendReadBit, sendInflateBit, topId, hphase] at h13 hql h6 ⊢
    omega
  | readFrame =>
    simp only [pHeldCount, sendReadBit, sendInflateBit, topId, hphase] at h13 hql h6 ⊢
    omega
  | sendInflate f =>
    simp only [pHeldCount, sendReadBit, sendInflateBit, topId, hphase] at h13 hql h6 ⊢
    omega
  | sendRead i =>
    have hsr := h4 i hphase
    simp only [pHeldCount, sendReadBit, sendInflateBit, topId, hphase] at h13 hql h6 ⊢
    omega
  | done r =>
    simp only [pHeldCount, sendReadBit, sendInflateBit, topId, hphase] at h13 hql h6 ⊢
    omega

/-- C1: order preservation of the parallel pipeline. For every underlying stream,
every worker count at least one, and every schedule of producer, worker and consumer
steps (hence every completion order of the inflater workers), the sequence of results
the consumer of the MultithreadedReader has observed is exactly a prefix of the
stream-order list of per-frame parse results: blocks are delivered whole, in stream
order, never skipped, duplicated or reordered, because the producer enqueues one-shot
result receivers in read order and the consumer pops them in that order. -/
theorem multithreaded_reader_order_preservation (n : Nat) (hn : 1 ≤ n)
    (stream : List Nat) (sched : List Lab) :
    (runPipe (initPipe n stream) sched).received =
      ((splitFrames stream).map parse_block).take
        (runPipe (initPipe n stream) sched).received.length := by
  have hI := inv_runPipe _ (inv_initPipe n stream) sched
  have hc := (runPipe_consts (initPipe n stream) sched).1
  have hrec := hI.hReceived
  rw [hc] at hrec
  exact hrec

/-- Witness for C1 at worker count 2, a two-block stream, and a schedule under which
the second block's inflater finishes before the first block's. -/
theorem multithreaded_reader_order_preservation_witness :
    1 ≤ 2 ∧
      (runPipe (initPipe 2 (encode_frame [1] ++ encode_frame [2]))
          [.pRecv, .pRead, .pSendInflate, .pSendRead,
           .pRecv, .pRead, .pSendInflate, .pSendRead,
           .wTake, .wTake,
           .wDone [(0, encode_frame [1])] (1, encode_frame [2]) [],
           .wDone [] (0, encode_frame [1]) [],
           .cRecv, .cRecv]).received =
        ((splitFrames (encode_frame [1] ++ encode_frame [2])).map parse_block).take
          (runPipe (initPipe 2 (encode_frame [1] ++ encode_frame [2]))
            [.pRecv, .pRead, .pSendInflate, .pSendRead,
             .pRecv, .pRead, .pSendInflate, .pSendRead,
             .wTake, .wTake,
             .wDone [(0, encode_frame [1])] (1, encode_frame [2]) [],
             .wDone [] (0, encode_frame [1]) [],
             .cRecv, .cRecv]).received.length :=
  ⟨by norm_num, multithreaded_reader_order_preservation 2 (by norm_num) _ _⟩

/-- C6 fails as stated: with worker count 1, after the producer's very first step
(taking the seeded buffer from the recycle channel) two Buffers are outside the
pool — the producer's plus the consumer's always-present active buffer — exceeding
the claimed bound of N = 1. -/
theorem multithreaded_reader_backpressure_cex :
    1 < buffersOutsidePool (runPipe (initPipe 1 (encode_frame [5])) [Lab.pRecv]) := by
  decide

/-- C6 (amended): all three channels are bounded with capacity N and exactly N
Buffers are seeded; at every reachable instant the number of Buffers outside the
recycle channel never exceeds N + 1 (the N pool buffers plus the consumer's active
buffer), and at most N frames are in flight (read but not yet consumed); the inflate
and read channels never hold more than N items and the recycle channel never holds
more than N buffers. -/
theorem multithreaded_reader_backpressure (n : Nat) (hn : 1 ≤ n) (stream : List Nat)
    (sched : List Lab) :
    buffersOutsidePool (runPipe (initPipe n stream) sched) ≤ n + 1 ∧
      framesInFlight (runPipe (initPipe n stream) sched) ≤ n ∧
      (runPipe (initPipe n stream) sched).inflateQ.length ≤ n ∧
      (runPipe (initPipe n stream) sched).readQ.length ≤ n ∧
      (runPipe (initPipe n stream) sched).recycle ≤ n := by
  have hI := inv_runPipe _ (inv_initPipe n stream) sched
  have hb := inv_bounds hI
  have hn' : (runPipe (initPipe n stream) sched).n = n :=
    (runPipe_consts (initPipe n stream) sched).2
  rw [hn'] at hb
  exact hb

/-- Witness for the amended C6 at worker count 1 after one producer step. -/
theorem multithreaded_reader_backpressure_witness :
    1 ≤ 1 ∧
      (buffersOutsidePool (runPipe (initPipe 1 (encode_frame [5])) [Lab.pRecv]) ≤ 1 + 1 ∧
        framesInFlight (runPipe (initPipe 1 (encode_frame [5])) [Lab.pRecv]) ≤ 1 ∧
        (runPipe (initPipe 1 (encode_frame [5])) [Lab.pRecv]).inflateQ.length ≤ 1 ∧
        (runPipe (initPipe 1 (encode_frame [5])) [Lab.pRecv]).readQ.length ≤ 1 ∧
        (runPipe (initPipe 1 (encode_frame [5])) [Lab.pRecv]).recycle ≤ 1) :=
  ⟨le_refl 1, multithreaded_reader_backpressure 1 (le_refl 1) _ _⟩

/-!
Consumer-side functional model of `MultithreadedReader`.

By the ordering theorem `multithreaded_reader_order_preservation`, the consumer's
successive `recv_buffer` calls yield, in stream order, exactly the per-frame
`parse_block` results, followed by `Ok(None)` once the channels close. The model
therefore carries the remaining deliveries directly, paired with the producer
thread's terminal result (which `finish` returns after the producer has run to
termination, as it has once the consumer has drained the stream). The `state`
`Option` mirrors `MultithreadedReader::state`; an unconditional `unwrap` of a taken
state (a panic) is modelled as a `none` result of the operation.
-/

/-- Consumer-side model of the multithreaded BGZF reader: the `Running` state's
remaining deliveries and producer result (or `none` once `finish` has taken the
state), the consumer's compressed-stream position, and the active buffer's block. -/
structure MultithreadedReader where
  state : Option (List (Except IoErr Block) × Except IoErr Unit)
  position : Nat
  buffer : Block

/-- The reader freshly constructed by `with_worker_count` over a given compressed
stream: position 0, an empty default buffer, and the stream's deliveries pending. -/
def MultithreadedReader.fromStream (s : List Nat) : MultithreadedReader :=
  { state := some ((splitFrames s).map parse_block, streamResult s),
    position := 0, buffer := {} }

/-- Receives the next inflated buffer: pops the front receiver of the read channel
and blocks on it. A closed channel (no deliveries left) yields `Ok(None)`; a worker's
parse failure is returned as the `Err` of this call. `none` models the panic of
`unwrap` on a finished reader. -/
def MultithreadedReader.recv_buffer (r : MultithreadedReader) :
    Option (MultithreadedReader × Except IoErr (Option Block)) :=
  match r.state with
  | none => none
  | some ([], _) => some (r, .ok none)
  | some (.ok b :: rest, res) => some ({ r with state := some (rest, res) }, .ok (some b))
  | some (.error e :: rest, res) => some ({ r with state := some (rest, res) }, .error e)

/-- Iteration of `read_block`'s loop body over the pending deliveries: each received
block is stamped with the consumer's running position, the position advances by the
block's on-disk size, the block is swapped in as the active buffer, and the loop
continues while the swapped-in block has no data. -/
structure ReadBlockOut where
  position : Nat
  buffer : Block
  pending : List (Except IoErr Block)
  err : Option IoErr

/-- The loop of `read_block` over the pending deliveries. -/
def read_block_go (pos : Nat) (buf : Block) :
    List (Except IoErr Block) → ReadBlockOut
  | [] => ⟨pos, buf, [], none⟩
  | .error e :: rest => ⟨pos, buf, rest, some e⟩
  | .ok b :: rest =>
    if 0 < b.data.length then ⟨pos + b.size, { b with position := pos }, rest, none⟩
    else read_block_go (pos + b.size) { b with position := pos } rest

/-- Advances to the next nonempty block (looping over `recv_buffer`), as in the
source's `read_block`. -/
def MultithreadedReader.read_block (r : MultithreadedReader) :
    Option (MultithreadedReader × Except IoErr Unit) :=
  match r.state with
  | none => none
  | some (pending, res) =>
    match read_block_go r.position r.buffer pending with
    | ⟨pos, buf, rest, none⟩ =>
      some ({ state := some (rest, res), position := pos, buffer := buf }, .ok ())
    | ⟨pos, buf, rest, some e⟩ =>
      some ({ state := some (rest, res), position := pos, buffer := buf }, .error e)

/-- The `BufRead::fill_buf` implementation: reads the next block only when the active
buffer is exhausted; the slice it returns is the active buffer's remaining bytes. -/
def MultithreadedReader.fill_buf (r : MultithreadedReader) :
    Option (MultithreadedReader × Except IoErr Unit) :=
  if r.buffer.hasRemaining then some (r, .ok ())
  else r.read_block

/-- The `BufRead::consume` implementation. -/
def MultithreadedReader.consume (r : MultithreadedReader) (amt : Nat) :
    MultithreadedReader :=
  { r with buffer := r.buffer.consumeData amt }

/-- The `Read::read` implementation: fill, copy at most `len` bytes, consume them. -/
def MultithreadedReader.readOp (r : MultithreadedReader) (len : Nat) :
    Option (MultithreadedReader × Except IoErr (List Nat)) :=
  match r.fill_buf with
  | none => none
  | some (r1, .error e) => some (r1, .error e)
  | some (r1, .ok ()) =>
    some (r1.consume (r1.buffer.remaining.take len).length,
      .ok (r1.buffer.remaining.take len))

/-- Shutdown: takes the `Running` state (panicking — modelled as `none` — if it was
already taken), drops the recycle-channel sender, joins every inflater thread, joins
the producer thread, and returns the producer thread's terminal result. -/
def MultithreadedReader.finish (r : MultithreadedReader) :
    Option (MultithreadedReader × Except IoErr Unit) :=
  match r.state with
  | none => none
  | some (_, res) => some ({ r with state := none }, res)

/-- The `Drop` implementation: calls `finish` and discards its result; a panic
(`none`) still propagates. -/
def MultithreadedReader.dropReader (r : MultithreadedReader) :
    Option MultithreadedReader :=
  (r.finish).map Prod.fst

/-- Number of pending deliveries. -/
def pendingLen (r : MultithreadedReader) : Nat :=
  match r.state with
  | none => 0
  | some (pending, _) => pending.length

/-- Termination measure for driving the reader to exhaustion. -/
def readMeasure (r : MultithreadedReader) : Nat :=
  2 * pendingLen r + (if r.buffer.hasRemaining then 1 else 0)

/-- Drives `fill_buf`/`consume` until the returned slice is empty, collecting the
bytes read, stopping at the first error (fuel-indexed helper). -/
def readToEndF : Nat → MultithreadedReader →
    Option (MultithreadedReader × Except IoErr (List Nat))
  | 0, _ => none
  | fuel + 1, r =>
    match r.fill_buf with
    | none => none
    | some (r1, .error e) => some (r1, .error e)
    | some (r1, .ok ()) =>
      if r1.buffer.remaining.isEmpty then some (r1, .ok [])
      else
        match readToEndF fuel (r1.consume r1.buffer.remaining.length) with
        | none => none
        | some (r2, .error e) => some (r2, .error e)
        | some (r2, .ok rest) => some (r2, .ok (r1.buffer.remaining ++ rest))

/-- Drives `fill_buf`/`consume` until the returned slice is empty, collecting the
bytes read, stopping at the first error. -/
def MultithreadedReader.readToEnd (r : MultithreadedReader) :
    Option (MultithreadedReader × Except IoErr (List Nat)) :=
  readToEndF (readMeasure r + 1) r

/-- The bytes (or first error) obtained by reading a compressed stream to
exhaustion through the multithreaded reader. -/
def readResult (s : List Nat) : Option (Except IoErr (List Nat)) :=
  Option.map Prod.snd (MultithreadedReader.readToEnd (MultithreadedReader.fromStream s))

/-- Drives `fill_buf`/`consume` to exhaustion, recording each read's result and
continuing past errors (fuel-indexed helper). -/
def drainF : Nat → MultithreadedReader → Option (List (Except IoErr (List Nat)))
  | 0, _ => none
  | fuel + 1, r =>
    match r.fill_buf with
    | none => none
    | some (r1, .error e) =>
      match drainF fuel r1 with
      | none => none
      | some out => some (.error e :: out)
    | some (r1, .ok ()) =>
      if r1.buffer.remaining.isEmpty then some []
      else
        match drainF fuel (r1.consume r1.buffer.remaining.length) with
        | none => none
        | some out => some (.ok r1.buffer.remaining :: out)

/-- Drives `fill_buf`/`consume` to exhaustion, recording each read's result and
continuing past errors. -/
def MultithreadedReader.drainAll (r : MultithreadedReader) :
    Option (List (Except IoErr (List Nat))) :=
  drainF (readMeasure r + 1) r

/-- Iterates `read_block` a given number of times, requiring each call to succeed. -/
def iterReadBlock : MultithreadedReader → Nat → Option MultithreadedReader
  | r, 0 => some r
  | r, k + 1 =>
    match r.read_block with
    | some (r1, .ok ()) => iterReadBlock r1 k
    | _ => none

/-- Expected outcome of reading a list of deliveries to exhaustion: the
concatenation of payloads up to the first worker error, or that error. -/
def expectedOut : List (Except IoErr Block) → Except IoErr (List Nat)
  | [] => .ok []
  | .error e :: _ => .error e
  | .ok b :: rest => (expectedOut rest).map (fun l => b.data ++ l)

/-- Expected per-read results of draining a list of deliveries past errors: empty
blocks are skipped, each nonempty block is one successful read, each worker error is
one failed read. -/
def expectedList : List (Except IoErr Block) → List (Except IoErr (List Nat))
  | [] => []
  | .error e :: rest => .error e :: expectedList rest
  | .ok b :: rest =>
    if b.data.isEmpty then expectedList rest
    else .ok b.data :: expectedList rest

/-- The deliveries of a well-formed encoded stream, one `ok` block per payload. -/
def oksOf (ps : List (List Nat)) : List (Except IoErr Block) :=
  ps.map (fun p => Except.ok (mkBlock p))

lemma remaining_eq_nil {b : Block} (h : b.hasRemaining = false) : b.remaining = [] := by
  unfold Block.hasRemaining at h
  unfold Block.remaining
  simp only [decide_eq_false_iff_not, Nat.not_lt] at h
  exact List.drop_eq_nil_of_le h

lemma fill_buf_eq_read_block {r : MultithreadedReader}
    (h : r.buffer.hasRemaining = false) : r.fill_buf = r.read_block := by
  unfold MultithreadedReader.fill_buf
  rw [h]
  simp

lemma read_block_nil (res : Except IoErr Unit) (pos : Nat) (buf : Block) :
    MultithreadedReader.read_block ⟨some ([], res), pos, buf⟩ =
      some (⟨some ([], res), pos, buf⟩, .ok ()) := by
  simp only [MultithreadedReader.read_block, read_block_go]

lemma read_block_err (e : IoErr) (rest : List (Except IoErr Block))
    (res : Except IoErr Unit) (pos : Nat) (buf : Block) :
    MultithreadedReader.read_block ⟨some (.error e :: rest, res), pos, buf⟩ =
      some (⟨some (rest, res), pos, buf⟩, .error e) := by
  simp only [MultithreadedReader.read_block, read_block_go]

lemma read_block_ok {b : Block} (hb : 0 < b.data.length)
    (rest : List (Except IoErr Block)) (res : Except IoErr Unit) (pos : Nat)
    (buf : Block) :
    MultithreadedReader.read_block ⟨some (.ok b :: rest, res), pos, buf⟩ =
      some (⟨some (rest, res), pos + b.size, { b with position := pos }⟩, .ok ()) := by
  simp only [MultithreadedReader.read_block, read_block_go, if_pos hb]

lemma hasRemaining_empty_data {b : Block} (h : b.data = []) :
    b.hasRemaining = false := by
  unfold Block.hasRemaining
  simp [h]

lemma fill_buf_skip_empty (rest : List (Except IoErr Block)) (res : Except IoErr Unit)
    (pos : Nat) (buf : Block) (b : Block) (hbuf : buf.hasRemaining = false)
    (hb : b.data = []) :
    MultithreadedReader.fill_buf ⟨some (Except.ok b :: rest, res), pos, buf⟩ =
      MultithreadedReader.fill_buf
        ⟨some (rest, res), pos + b.size, { b with position := pos }⟩ := by
  have hb' : ({ b with position := pos } : Block).data = [] := hb
  rw [fill_buf_eq_read_block (show Block.hasRemaining buf = false from hbuf),
    fill_buf_eq_read_block (show ({ b with position := pos } : Block).hasRemaining = false
      from hasRemaining_empty_data hb')]
  simp only [MultithreadedReader.read_block]
  have hgo : read_block_go pos buf (Except.ok b :: rest) =
      read_block_go (pos + b.size) { b with position := pos } rest := by
    simp only [read_block_go, hb]
    simp
  rw [hgo]

lemma readToEndF_nil (fuel : Nat) (res : Except IoErr Unit) (pos : Nat) (buf : Block)
    (hfuel : 0 < fuel) (hbuf : buf.hasRemaining = false) :
    readToEndF fuel ⟨some ([], res), pos, buf⟩ =
      some (⟨some ([], res), pos, buf⟩, .ok []) := by
  cases fuel with
  | zero => omega
  | succ f =>
    have hrem : buf.remaining = [] := remaining_eq_nil hbuf
    simp only [readToEndF]
    rw [fill_buf_eq_read_block (show Block.hasRemaining buf = false from hbuf),
      read_block_nil]
    simp [hrem]

lemma expectedOut_skip {b : Block} (hb : b.data = [])
    (rest : List (Except IoErr Block)) :
    expectedOut (.ok b :: rest) = expectedOut rest := by
  simp only [expectedOut, hb]
  cases expectedOut rest <;> simp [Except.map]

lemma readToEndF_step (f : Nat) (r r1 : MultithreadedReader)
    (h : r.fill_buf = some (r1, .ok ())) :
    readToEndF (f + 1) r =
      (if r1.buffer.remaining.isEmpty then some (r1, Except.ok [])
       else
        match readToEndF f (r1.consume r1.buffer.remaining.length) with
        | none => none
        | some (r2, .error e) => some (r2, .error e)
        | some (r2, .ok rest) => some (r2, .ok (r1.buffer.remaining ++ rest))) := by
  simp only [readToEndF, h]

lemma readToEndF_spec : ∀ (k : Nat) (pending : List (Except IoErr Block))
    (fuel : Nat) (res : Except IoErr Unit) (pos : Nat) (buf : Block),
    pending.length ≤ k →
    2 * pending.length < fuel →
    buf.hasRemaining = false →
    (∀ b, Except.ok b ∈ pending → b.dataPos = 0) →
    ∃ r2, readToEndF fuel ⟨some (pending, res), pos, buf⟩ =
        some (r2, expectedOut pending) ∧
      (∃ pend2, r2.state = some (pend2, res)) ∧
      (∀ l, expectedOut pending = .ok l →
        r2.state = some ([], res) ∧ r2.buffer.hasRemaining = false) := by
  intro k
  induction k with
  | zero =>
    intro pending fuel res pos buf hk hfuel hbuf hfresh
    have hpnil : pending = [] := List.length_eq_zero.mp (Nat.le_zero.mp hk)
    subst hpnil
    refine ⟨⟨some ([], res), pos, buf⟩, ?_, ⟨[], rfl⟩, ?_⟩
    · rw [readToEndF_nil fuel res pos buf (by omega) hbuf]
      rfl
    · intro l _
      exact ⟨rfl, hbuf⟩
  | succ k ih =>
    intro pending fuel res pos buf hk hfuel hbuf hfresh
    cases fuel with
    | zero => omega
    | succ f =>
      cases pending with
      | nil =>
        refine ⟨⟨some ([], res), pos, buf⟩, ?_, ⟨[], rfl⟩, ?_⟩
        · rw [readToEndF_nil (f + 1) res pos buf (by omega) hbuf]
          rfl
        · intro l _
          exact ⟨rfl, hbuf⟩
      | cons hd rest =>
        cases hd with
        | error e =>
          refine ⟨⟨some (rest, res), pos, buf⟩, ?_, ⟨rest, rfl⟩, ?_⟩
          · simp only [readToEndF]
            rw [fill_buf_eq_read_block (show Block.hasRemaining buf = false from hbuf),
              read_block_err]
            rfl
          · intro l hl
            simp [expectedOut] at hl
        | ok b =>
          have hfb : b.dataPos = 0 := hfresh b (by simp)
          have hfresh2 : ∀ c, Except.ok c ∈ rest → c.dataPos = 0 := by
            intro c hcmem
            exact hfresh c (by simp [hcmem])
          by_cases hdl : b.data = []
          · have hbR : ({ b with position := pos } : Block).hasRemaining = false :=
              hasRemaining_empty_data hdl
            have hcongr : readToEndF (f + 1) ⟨some (Except.ok b :: rest, res), pos, buf⟩ =
                readToEndF (f + 1)
                  ⟨some (rest, res), pos + b.size, { b with position := pos }⟩ := by
              simp only [readToEndF]
              rw [fill_buf_skip_empty rest res pos buf b hbuf hdl]
            obtain ⟨r2, heq, hstate, hpost⟩ := ih rest (f + 1) res (pos + b.size)
              { b with position := pos } (by simp at hk; omega)
              (by simp at hfuel ⊢; omega) hbR hfresh2
            have hEO : expectedOut (Except.ok b :: rest) = expectedOut rest :=
              expectedOut_skip hdl rest
            refine ⟨r2, ?_, hstate, ?_⟩
            · rw [hcongr, heq, hEO]
            · intro l hl
              rw [hEO] at hl
              exact hpost l hl
          · have hdata : 0 < b.data.length := by
              cases hd2 : b.data with
              | nil => exact absurd hd2 hdl
              | cons x xs => simp [hd2]
            have hrem1 : ({ b with position := pos } : Block).remaining = b.data := by
              unfold Block.remaining
              simp [hfb]
            have hne0 : b.data.isEmpty = false := by
              cases hd2 : b.data with
              | nil => exact absurd hd2 hdl
              | cons x xs => rfl
            have hconsumed : (Block.consumeData { b with position := pos }
                b.data.length).hasRemaining = false := by
              unfold Block.consumeData Block.hasRemaining
              simp [hfb]
            have hfill : MultithreadedReader.fill_buf
                ⟨some (Except.ok b :: rest, res), pos, buf⟩ =
                some (⟨some (rest, res), pos + b.size, { b with position := pos }⟩,
                  .ok ()) := by
              rw [fill_buf_eq_read_block (show Block.hasRemaining buf = false from hbuf),
                read_block_ok hdata]
            have hstep := readToEndF_step f ⟨some (Except.ok b :: rest, res), pos, buf⟩
              ⟨some (rest, res), pos + b.size, { b with position := pos }⟩ hfill
            obtain ⟨r2, heq, hstate, hpost⟩ := ih rest f res (pos + b.size)
              (Block.consumeData { b with position := pos } b.data.length)
              (by simp at hk; omega) (by simp at hfuel ⊢; omega) hconsumed hfresh2
            have heq2 : readToEndF f
                ((⟨some (rest, res), pos + b.size, { b with position := pos }⟩ :
                  MultithreadedReader).consume b.data.length) =
                some (r2, expectedOut rest) := heq
            cases hEr : expectedOut rest with
            | ok l =>
              have hfin : expectedOut (Except.ok b :: rest) = Except.ok (b.data ++ l) := by
                simp [expectedOut, hEr, Except.map]
              refine ⟨r2, ?_, hstate, ?_⟩
              · rw [hstep, hrem1, hne0]
                simp only [Bool.false_eq_true, if_false]
                rw [heq2, hEr, hfin]
              · intro l2 hl2
                exact hpost l hEr
            | error e2 =>
              have hfin : expectedOut (Except.ok b :: rest) = Except.error e2 := by
                simp [expectedOut, hEr, Except.map]
              refine ⟨r2, ?_, hstate, ?_⟩
              · rw [hstep, hrem1, hne0]
                simp only [Bool.false_eq_true, if_false]
                rw [heq2, hEr, hfin]
              · intro l2 hl2
                rw [hfin] at hl2
                cases hl2

lemma readToEnd_spec (pending : List (Except IoErr Block)) (res : Except IoErr Unit)
    (pos : Nat) (buf : Block) (hbuf : buf.hasRemaining = false)
    (hfresh : ∀ b, Except.ok b ∈ pending → b.dataPos = 0) :
    ∃ r2, MultithreadedReader.readToEnd ⟨some (pending, res), pos, buf⟩ =
        some (r2, expectedOut pending) ∧
      (∃ pend2, r2.state = some (pend2, res)) ∧
      (∀ l, expectedOut pending = .ok l →
        r2.state = some ([], res) ∧ r2.buffer.hasRemaining = false) := by
  have hm : readMeasure ⟨some (pending, res), pos, buf⟩ = 2 * pending.length := by
    unfold readMeasure pendingLen
    rw [hbuf]
    simp
  unfold MultithreadedReader.readToEnd
  rw [hm]
  exact readToEndF_spec pending.length pending (2 * pending.length + 1) res pos buf
    le_rfl (by omega) hbuf hfresh

lemma map_parse_encode (ps : List (List Nat)) (hlen : ∀ p ∈ ps, p.length + 14 ≤ 65535)
    (hb : ∀ p ∈ ps, ∀ x ∈ p, x < 256) :
    (ps.map encode_frame).map parse_block = oksOf ps := by
  induction ps with
  | nil => rfl
  | cons p ps ih =>
    simp only [List.map_cons, oksOf]
    rw [parse_block_encode p (hb p (by simp)) (hlen p (by simp))]
    have htail := ih (fun q hq => hlen q (by simp [hq])) (fun q hq => hb q (by simp [hq]))
    unfold oksOf at htail
    rw [htail]

lemma oksOf_fresh (ps : List (List Nat)) :
    ∀ b, Except.ok b ∈ oksOf ps → b.dataPos = 0 := by
  intro b hb
  unfold oksOf at hb
  obtain ⟨p, hp, he⟩ := List.mem_map.mp hb
  cases he
  rfl

lemma expectedOut_oks_append (ps : List (List Nat)) (rest : List (Except IoErr Block)) :
    expectedOut (oksOf ps ++ rest) =
      (expectedOut rest).map (fun l => ps.flatten ++ l) := by
  induction ps with
  | nil =>
    simp only [oksOf, List.map_nil, List.nil_append, List.flatten_nil]
    cases expectedOut rest <;> simp [Except.map]
  | cons p ps ih =>
    have hhead : oksOf (p :: ps) ++ rest =
        Except.ok (mkBlock p) :: (oksOf ps ++ rest) := by
      simp [oksOf]
    rw [hhead]
    simp only [expectedOut]
    rw [ih]
    cases expectedOut rest <;> simp [Except.map, mkBlock, List.append_assoc]

lemma expectedOut_oks (ps : List (List Nat)) :
    expectedOut (oksOf ps) = .ok ps.flatten := by
  have h := expectedOut_oks_append ps []
  simpa [expectedOut, Except.map] using h

lemma expectedOut_oks_error (ps : List (List Nat)) (e : IoErr)
    (rest : List (Except IoErr Block)) :
    expectedOut (oksOf ps ++ .error e :: rest) = .error e := by
  rw [expectedOut_oks_append]
  rfl

lemma default_block_not_hasRemaining : ({} : Block).hasRemaining = false := rfl

lemma splitFrames_nil : splitFrames ([] : List Nat) = [] := rfl

lemma streamResult_nil : streamResult ([] : List Nat) = .ok () := rfl

lemma encodeAll_snoc_empty (ps : List (List Nat)) :
    encodeAll ps ++ eofFrame = encodeAll (ps ++ [[]]) := by
  simp [encodeAll, eofFrame, List.map_append, List.flatten_append]

lemma fromStream_clean (qs : List (List Nat)) (hlen : ∀ p ∈ qs, p.length + 14 ≤ 65535)
    (hb : ∀ p ∈ qs, ∀ x ∈ p, x < 256) :
    MultithreadedReader.fromStream (encodeAll qs) =
      ⟨some (oksOf qs, .ok ()), 0, {}⟩ := by
  unfold MultithreadedReader.fromStream
  have h1 : splitFrames (encodeAll qs) = qs.map encode_frame := by
    have h := splitFrames_encodeAll qs hlen []
    simpa [splitFrames_nil] using h
  have h2 : streamResult (encodeAll qs) = .ok () := by
    have h := streamResult_encodeAll qs hlen []
    simpa [streamResult_nil] using h
  rw [h1, h2, map_parse_encode qs hlen hb]

/-- C3: a stream of data blocks followed by the EOF marker reads back, through the
multithreaded reader, as exactly the concatenation of the blocks' decompressed
payloads; afterwards fill_buf succeeds with an empty slice and read returns zero
bytes — clean end-of-stream, not an error. -/
theorem multithreaded_reader_eof_clean (ps : List (List Nat))
    (hlen : ∀ p ∈ ps, p.length + 14 ≤ 65535) (hb : ∀ p ∈ ps, ∀ x ∈ p, x < 256) :
    ∃ r2 r3 r4,
      MultithreadedReader.readToEnd
          (MultithreadedReader.fromStream (encodeAll ps ++ eofFrame)) =
        some (r2, .ok ps.flatten) ∧
      r2.fill_buf = some (r3, .ok ()) ∧
      r3.buffer.remaining = [] ∧
      r2.readOp 4096 = some (r4, .ok []) := by
  have hlenq : ∀ p ∈ ps ++ [[]], p.length + 14 ≤ 65535 := by
    intro p hp
    rcases List.mem_append.mp hp with hp | hp
    · exact hlen p hp
    · simp at hp
      subst hp
      simp
  have hbq : ∀ p ∈ ps ++ [[]], ∀ x ∈ p, x < 256 := by
    intro p hp
    rcases List.mem_append.mp hp with hp | hp
    · exact hb p hp
    · simp at hp
      subst hp
      simp
  rw [encodeAll_snoc_empty ps, fromStream_clean (ps ++ [[]]) hlenq hbq]
  obtain ⟨r2, heq, hstate, hpost⟩ := readToEnd_spec (oksOf (ps ++ [[]])) (.ok ()) 0 {}
    default_block_not_hasRemaining (oksOf_fresh _)
  have hflat : (ps ++ [([] : List Nat)]).flatten = ps.flatten := by
    simp
  have hEO : expectedOut (oksOf (ps ++ [[]])) = .ok ps.flatten := by
    rw [expectedOut_oks, hflat]
  obtain ⟨hst2, hbuf2⟩ := hpost _ hEO
  obtain ⟨st2, pos2, buf2⟩ := r2
  simp only at hst2 hbuf2
  subst hst2
  have hrem2 : buf2.remaining = [] := remaining_eq_nil hbuf2
  refine ⟨⟨some ([], .ok ()), pos2, buf2⟩, ⟨some ([], .ok ()), pos2, buf2⟩,
    (⟨some ([], .ok ()), pos2, buf2⟩ : MultithreadedReader).consume 0, ?_, ?_, ?_, ?_⟩
  · rw [heq, hEO]
  · rw [fill_buf_eq_read_block hbuf2, read_block_nil]
  · exact hrem2
  · unfold MultithreadedReader.readOp
    rw [fill_buf_eq_read_block hbuf2, read_block_nil]
    simp only [hrem2, List.take_nil, List.length_nil]

/-- C9: the multithreaded reader's end-of-stream condition is determined solely by
the underlying stream being exhausted; every delivered block whose decompressed
payload is empty — the EOF marker or any ordinary empty block, at any position in
the stream — is silently skipped by the read_block loop, so an EOF marker followed
by more data blocks does not terminate reading: the reader returns the data of the
blocks on both sides of the marker. -/
theorem multithreaded_reader_skips_empty_blocks (ps qs : List (List Nat))
    (hplen : ∀ p ∈ ps, p.length + 14 ≤ 65535) (hpb : ∀ p ∈ ps, ∀ x ∈ p, x < 256)
    (hqlen : ∀ p ∈ qs, p.length + 14 ≤ 65535) (hqb : ∀ p ∈ qs, ∀ x ∈ p, x < 256) :
    readResult (encodeAll ps ++ eofFrame ++ encodeAll qs) =
      some (.ok (ps.flatten ++ qs.flatten)) := by
  have hstream : encodeAll ps ++ eofFrame ++ encodeAll qs =
      encodeAll (ps ++ [[]] ++ qs) := by
    simp [encodeAll, eofFrame, List.map_append, List.flatten_append]
  have hlenq : ∀ p ∈ ps ++ [[]] ++ qs, p.length + 14 ≤ 65535 := by
    intro p hp
    rcases List.mem_append.mp hp with hp | hp
    · rcases List.mem_append.mp hp with hp | hp
      · exact hplen p hp
      · simp at hp
        subst hp
        simp
    · exact hqlen p hp
  have hbq : ∀ p ∈ ps ++ [[]] ++ qs, ∀ x ∈ p, x < 256 := by
    intro p hp
    rcases List.mem_append.mp hp with hp | hp
    · rcases List.mem_append.mp hp with hp | hp
      · exact hpb p hp
      · simp at hp
        subst hp
        simp
    · exact hqb p hp
  unfold readResult
  rw [hstream, fromStream_clean (ps ++ [[]] ++ qs) hlenq hbq]
  obtain ⟨r2, heq, _, _⟩ := readToEnd_spec (oksOf (ps ++ [[]] ++ qs)) (.ok ()) 0 {}
    default_block_not_hasRemaining (oksOf_fresh _)
  rw [heq, expectedOut_oks]
  simp

/-- A frame whose size subfield and trailer are self-consistent (so the producer
reads it without complaint) but whose magic bytes are wrong, making the worker's
parse_block fail with a data error. -/
def badMagicFrame : List Nat := [9, 9, 9, 9, 14, 0, 0, 0, 0, 0, 0, 0, 0, 0]

lemma read_frame_into_badMagic (t : List Nat) :
    read_frame_into (badMagicFrame ++ t) = .ok (some (badMagicFrame, t)) := by
  unfold read_frame_into
  have hf : frameLen (badMagicFrame ++ t) = 14 := rfl
  have hlen : (badMagicFrame ++ t).length = 14 + t.length := by
    simp [badMagicFrame]
    omega
  have hne : (badMagicFrame ++ t).isEmpty = false := rfl
  rw [hne, hf, hlen]
  simp only [Bool.false_eq_true, if_false]
  rw [if_neg (by omega), if_neg (by omega)]
  rw [List.take_left' (show badMagicFrame.length = 14 from rfl),
    List.drop_left' (show badMagicFrame.length = 14 from rfl)]

lemma parse_badMagicFrame : parse_block badMagicFrame = .error .invalidData := by
  decide

lemma pending_bad_mid (ps qs : List (List Nat))
    (hplen : ∀ p ∈ ps, p.length + 14 ≤ 65535) (hpb : ∀ p ∈ ps, ∀ x ∈ p, x < 256)
    (hqlen : ∀ p ∈ qs, p.length + 14 ≤ 65535) (hqb : ∀ p ∈ qs, ∀ x ∈ p, x < 256) :
    (splitFrames (encodeAll ps ++ badMagicFrame ++ encodeAll qs)).map parse_block =
      oksOf ps ++ .error .invalidData :: oksOf qs := by
  rw [List.append_assoc, splitFrames_encodeAll ps hplen _,
    splitFrames_some (read_frame_into_badMagic _)]
  have hq : splitFrames (encodeAll qs) = qs.map encode_frame := by
    have h := splitFrames_encodeAll qs hqlen []
    simpa [splitFrames_nil] using h
  rw [hq]
  rw [List.map_append, List.map_cons, map_parse_encode ps hplen hpb,
    map_parse_encode qs hqlen hqb, parse_badMagicFrame]

/-- C2 fails as stated: for the stream of one good block followed by a truncated
frame — a malformed-input condition — the error is never surfaced to the caller of
fill_buf/read: reading to exhaustion yields the good payload and then clean
end-of-stream, while the unexpected-end-of-input error is only the producer
thread's terminal result. -/
theorem multithreaded_reader_error_surfacing_cex :
    readResult (encode_frame [7] ++ [0, 0, 0]) = some (.ok [7]) ∧
      streamResult (encode_frame [7] ++ [0, 0, 0]) = .error .unexpectedEof := by
  constructor
  · decide
  · decide

/-- C2 (amended): worker-side malformed-block conditions (bad magic, bad extra
field, checksum mismatch) are surfaced to the caller of the read operation as a
data error; producer-side frame-reading errors (a truncated frame) are not surfaced
through fill_buf/read — the consumer reads the preceding blocks' data and then
observes clean end-of-stream — and are surfaced only as the producer thread's
terminal result, the value finish() returns. -/
theorem multithreaded_reader_error_surfacing (ps qs : List (List Nat))
    (hplen : ∀ p ∈ ps, p.length + 14 ≤ 65535) (hpb : ∀ p ∈ ps, ∀ x ∈ p, x < 256)
    (hqlen : ∀ p ∈ qs, p.length + 14 ≤ 65535) (hqb : ∀ p ∈ qs, ∀ x ∈ p, x < 256) :
    (∃ r2, MultithreadedReader.readToEnd (MultithreadedReader.fromStream
        (encodeAll ps ++ badMagicFrame ++ encodeAll qs)) =
      some (r2, .error .invalidData)) ∧
    readResult (encodeAll ps ++ [0]) = some (.ok ps.flatten) ∧
    streamResult (encodeAll ps ++ [0]) = .error .unexpectedEof := by
  have hfresh : ∀ b, Except.ok b ∈ oksOf ps ++ .error .invalidData :: oksOf qs →
      b.dataPos = 0 := by
    intro b hbmem
    rcases List.mem_append.mp hbmem with hm | hm
    · exact oksOf_fresh ps b hm
    · rcases List.mem_cons.mp hm with hm | hm
      · cases hm
      · exact oksOf_fresh qs b hm
  have hsr : streamResult (encodeAll ps ++ [0]) = .error .unexpectedEof := by
    rw [streamResult_encodeAll ps hplen]
    exact streamResult_short (by simp) (by simp)
  refine ⟨?_, ?_, hsr⟩
  · simp only [MultithreadedReader.fromStream]
    rw [pending_bad_mid ps qs hplen hpb hqlen hqb]
    obtain ⟨r2, heq, _, _⟩ := readToEnd_spec (oksOf ps ++ .error .invalidData :: oksOf qs)
      (streamResult (encodeAll ps ++ badMagicFrame ++ encodeAll qs)) 0 {}
      default_block_not_hasRemaining hfresh
    exact ⟨r2, by rw [heq, expectedOut_oks_error]⟩
  · unfold readResult
    simp only [MultithreadedReader.fromStream]
    have hpend : (splitFrames (encodeAll ps ++ [0])).map parse_block = oksOf ps := by
      rw [splitFrames_encodeAll ps hplen, splitFrames_short (by simp)]
      simpa using map_parse_encode ps hplen hpb
    rw [hpend]
    obtain ⟨r2, heq, _, _⟩ := readToEnd_spec (oksOf ps)
      (streamResult (encodeAll ps ++ [0])) 0 {}
      default_block_not_hasRemaining (oksOf_fresh ps)
    rw [heq, expectedOut_oks]
    rfl

/-- C4: finish() takes the Running state, drops the recycle-channel sender, joins
every inflater worker thread, joins the producer thread, and returns the producer
thread's result, so after the consumer has drained the stream, finish() returns
exactly the producer's terminal result — Ok for a stream that ended at a frame
boundary, and the I/O error the producer encountered for a truncated stream — and
leaves the state taken (a panic on reuse rather than a converted error). -/
theorem multithreaded_reader_finish_returns_producer_result (ps : List (List Nat))
    (hlen : ∀ p ∈ ps, p.length + 14 ≤ 65535) (hb : ∀ p ∈ ps, ∀ x ∈ p, x < 256)
    (tail : List Nat) (htail : tail.length < 6) :
    ∃ r2 out r3,
      MultithreadedReader.readToEnd
          (MultithreadedReader.fromStream (encodeAll ps ++ tail)) = some (r2, out) ∧
      r2.finish = some (r3, streamResult (encodeAll ps ++ tail)) ∧
      r3.state = none ∧
      streamResult (encodeAll ps ++ tail) =
        (if tail.isEmpty then .ok () else .error .unexpectedEof) := by
  have hpend : (splitFrames (encodeAll ps ++ tail)).map parse_block = oksOf ps := by
    rw [splitFrames_encodeAll ps hlen, splitFrames_short htail]
    simpa using map_parse_encode ps hlen hb
  have hres : streamResult (encodeAll ps ++ tail) =
      (if tail.isEmpty then .ok () else .error .unexpectedEof) := by
    rw [streamResult_encodeAll ps hlen]
    cases htl : tail with
    | nil => rfl
    | cons x xs =>
      rw [streamResult_short (by simp) (by rw [← htl]; exact htail)]
      rfl
  simp only [MultithreadedReader.fromStream]
  rw [hpend]
  obtain ⟨r2, heq, ⟨pend2, hstate⟩, _⟩ := readToEnd_spec (oksOf ps)
    (streamResult (encodeAll ps ++ tail)) 0 {}
    default_block_not_hasRemaining (oksOf_fresh ps)
  obtain ⟨st2, pos2, buf2⟩ := r2
  simp only at hstate
  subst hstate
  refine ⟨_, _, ⟨none, pos2, buf2⟩, heq, ?_, rfl, hres⟩
  unfold MultithreadedReader.finish
  rfl

lemma drainF_step_ok (f : Nat) (r r1 : MultithreadedReader)
    (h : r.fill_buf = some (r1, .ok ())) :
    drainF (f + 1) r =
      (if r1.buffer.remaining.isEmpty then some []
       else
        match drainF f (r1.consume r1.buffer.remaining.length) with
        | none => none
        | some out => some (.ok r1.buffer.remaining :: out)) := by
  simp only [drainF, h]

lemma drainF_step_err (f : Nat) (r r1 : MultithreadedReader) (e : IoErr)
    (h : r.fill_buf = some (r1, .error e)) :
    drainF (f + 1) r =
      (match drainF f r1 with
       | none => none
       | some out => some (.error e :: out)) := by
  simp only [drainF, h]

lemma drainF_congr {f : Nat} {r q : MultithreadedReader} (h : r.fill_buf = q.fill_buf) :
    drainF (f + 1) r = drainF (f + 1) q := by
  simp only [drainF, h]

lemma drainF_nil (fuel : Nat) (res : Except IoErr Unit) (pos : Nat) (buf : Block)
    (hfuel : 0 < fuel) (hbuf : buf.hasRemaining = false) :
    drainF fuel ⟨some ([], res), pos, buf⟩ = some [] := by
  cases fuel with
  | zero => omega
  | succ f =>
    have hfill : MultithreadedReader.fill_buf ⟨some ([], res), pos, buf⟩ =
        some (⟨some ([], res), pos, buf⟩, .ok ()) := by
      rw [fill_buf_eq_read_block (show Block.hasRemaining buf = false from hbuf),
        read_block_nil]
    rw [drainF_step_ok f _ _ hfill]
    have hrem : buf.remaining = [] := remaining_eq_nil hbuf
    simp [hrem]

lemma expectedList_skip {b : Block} (hb : b.data = [])
    (rest : List (Except IoErr Block)) :
    expectedList (.ok b :: rest) = expectedList rest := by
  simp [expectedList, hb]

lemma expectedList_cons_ne {b : Block} (hb : b.data.isEmpty = false)
    (rest : List (Except IoErr Block)) :
    expectedList (.ok b :: rest) = .ok b.data :: expectedList rest := by
  simp [expectedList, hb]

lemma drainF_spec : ∀ (k : Nat) (pending : List (Except IoErr Block)) (fuel : Nat)
    (res : Except IoErr Unit) (pos : Nat) (buf : Block),
    pending.length ≤ k →
    2 * pending.length < fuel →
    buf.hasRemaining = false →
    (∀ b, Except.ok b ∈ pending → b.dataPos = 0) →
    drainF fuel ⟨some (pending, res), pos, buf⟩ = some (expectedList pending) := by
  intro k
  induction k with
  | zero =>
    intro pending fuel res pos buf hk hfuel hbuf hfresh
    have hpnil : pending = [] := List.length_eq_zero.mp (Nat.le_zero.mp hk)
    subst hpnil
    rw [drainF_nil fuel res pos buf (by omega) hbuf]
    rfl
  | succ k ih =>
    intro pending fuel res pos buf hk hfuel hbuf hfresh
    cases fuel with
    | zero => omega
    | succ f =>
      cases pending with
      | nil =>
        rw [drainF_nil (f + 1) res pos buf (by omega) hbuf]
        rfl
      | cons hd rest =>
        cases hd with
        | error e =>
          have hfill : MultithreadedReader.fill_buf
              ⟨some (Except.error e :: rest, res), pos, buf⟩ =
              some (⟨some (rest, res), pos, buf⟩, .error e) := by
            rw [fill_buf_eq_read_block (show Block.hasRemaining buf = false from hbuf),
              read_block_err]
          rw [drainF_step_err f _ _ e hfill]
          rw [ih rest f res pos buf (by simp at hk; omega) (by simp at hfuel ⊢; omega)
            hbuf (fun c hc => hfresh c (by simp [hc]))]
          rfl
        | ok b =>
          have hfb : b.dataPos = 0 := hfresh b (by simp)
          have hfresh2 : ∀ c, Except.ok c ∈ rest → c.dataPos = 0 := by
            intro c hcmem
            exact hfresh c (by simp [hcmem])
          by_cases hdl : b.data = []
          · have hbR : ({ b with position := pos } : Block).hasRemaining = false :=
              hasRemaining_empty_data hdl
            have hcongr : drainF (f + 1) ⟨some (Except.ok b :: rest, res), pos, buf⟩ =
                drainF (f + 1)
                  ⟨some (rest, res), pos + b.size, { b with position := pos }⟩ :=
              drainF_congr (fill_buf_skip_empty rest res pos buf b hbuf hdl)
            rw [hcongr, ih rest (f + 1) res (pos + b.size) { b with position := pos }
              (by simp at hk; omega) (by simp at hfuel ⊢; omega) hbR hfresh2,
              expectedList_skip hdl]
          · have hdata : 0 < b.data.length := by
              cases hd2 : b.data with
              | nil => exact absurd hd2 hdl
              | cons x xs => simp [hd2]
            have hrem1 : ({ b with position := pos } : Block).remaining = b.data := by
              unfold Block.remaining
              simp [hfb]
            have hne0 : b.data.isEmpty = false := by
              cases hd2 : b.data with
              | nil => exact absurd hd2 hdl
              | cons x xs => rfl
            have hconsumed : (Block.consumeData { b with position := pos }
                b.data.length).hasRemaining = false := by
              unfold Block.consumeData Block.hasRemaining
              simp [hfb]
            have hfill : MultithreadedReader.fill_buf
                ⟨some (Except.ok b :: rest, res), pos, buf⟩ =
                some (⟨some (rest, res), pos + b.size, { b with position := pos }⟩,
                  .ok ()) := by
              rw [fill_buf_eq_read_block (show Block.hasRemaining buf = false from hbuf),
                read_block_ok hdata]
            rw [drainF_step_ok f _ _ hfill, hrem1, hne0]
            simp only [Bool.false_eq_true, if_false]
            have heq2 : drainF f
                ((⟨some (rest, res), pos + b.size, { b with position := pos }⟩ :
                  MultithreadedReader).consume b.data.length) =
                some (expectedList rest) :=
              ih rest f res (pos + b.size)
                (Block.consumeData { b with position := pos } b.data.length)
                (by simp at hk; omega) (by simp at hfuel ⊢; omega) hconsumed hfresh2
            rw [heq2, expectedList_cons_ne hne0]

lemma drainAll_spec (pending : List (Except IoErr Block)) (res : Except IoErr Unit)
    (pos : Nat) (buf : Block) (hbuf : buf.hasRemaining = false)
    (hfresh : ∀ b, Except.ok b ∈ pending → b.dataPos = 0) :
    MultithreadedReader.drainAll ⟨some (pending, res), pos, buf⟩ =
      some (expectedList pending) := by
  have hm : readMeasure ⟨some (pending, res), pos, buf⟩ = 2 * pending.length := by
    unfold readMeasure pendingLen
    rw [hbuf]
    simp
  unfold MultithreadedReader.drainAll
  rw [hm]
  exact drainF_spec pending.length pending (2 * pending.length + 1) res pos buf
    le_rfl (by omega) hbuf hfresh

lemma expectedList_oks (ps : List (List Nat)) (hne : ∀ p ∈ ps, p ≠ [])
    (rest : List (Except IoErr Block)) :
    expectedList (oksOf ps ++ rest) =
      (ps.map Except.ok : List (Except IoErr (List Nat))) ++ expectedList rest := by
  induction ps with
  | nil => simp [oksOf]
  | cons p ps ih =>
    have hp : p ≠ [] := hne p (by simp)
    have hpe : (mkBlock p).data.isEmpty = false := by
      cases hd : p with
      | nil => exact absurd hd hp
      | cons x xs => rfl
    have hhead : oksOf (p :: ps) ++ rest =
        Except.ok (mkBlock p) :: (oksOf ps ++ rest) := by
      simp [oksOf]
    rw [hhead, expectedList_cons_ne hpe, ih (fun q hq => hne q (by simp [hq]))]
    rfl

/-- C5: a worker's decompression/parse failure is carried as the Result of the
single read that requested that block: draining a stream with one corrupt frame in
the middle yields every preceding block's data as a successful read, exactly one
failed read for the corrupt block, and every following block's data as successful
reads again; a failure in the producer thread instead ends the whole stream, with
no per-read error. -/
theorem multithreaded_reader_worker_failure_isolated (ps qs : List (List Nat))
    (hplen : ∀ p ∈ ps, p.length + 14 ≤ 65535) (hpb : ∀ p ∈ ps, ∀ x ∈ p, x < 256)
    (hpne : ∀ p ∈ ps, p ≠ [])
    (hqlen : ∀ p ∈ qs, p.length + 14 ≤ 65535) (hqb : ∀ p ∈ qs, ∀ x ∈ p, x < 256)
    (hqne : ∀ p ∈ qs, p ≠ []) :
    MultithreadedReader.drainAll (MultithreadedReader.fromStream
        (encodeAll ps ++ badMagicFrame ++ encodeAll qs)) =
      some ((ps.map Except.ok : List (Except IoErr (List Nat))) ++
        .error .invalidData :: qs.map Except.ok) ∧
    MultithreadedReader.drainAll (MultithreadedReader.fromStream (encodeAll ps ++ [0])) =
      some (ps.map Except.ok) := by
  constructor
  · have hfresh : ∀ b, Except.ok b ∈ oksOf ps ++ .error .invalidData :: oksOf qs →
        b.dataPos = 0 := by
      intro b hbmem
      rcases List.mem_append.mp hbmem with hm | hm
      · exact oksOf_fresh ps b hm
      · rcases List.mem_cons.mp hm with hm | hm
        · cases hm
        · exact oksOf_fresh qs b hm
    simp only [MultithreadedReader.fromStream]
    rw [pending_bad_mid ps qs hplen hpb hqlen hqb]
    rw [drainAll_spec _ _ _ _ default_block_not_hasRemaining hfresh]
    rw [expectedList_oks ps hpne]
    have hq : expectedList (Except.error IoErr.invalidData :: oksOf qs) =
        Except.error IoErr.invalidData :: (qs.map Except.ok :
          List (Except IoErr (List Nat))) := by
      show Except.error IoErr.invalidData :: expectedList (oksOf qs) = _
      have h0 : expectedList (oksOf qs) =
          (qs.map Except.ok : List (Except IoErr (List Nat))) := by
        have h1 := expectedList_oks qs hqne []
        simpa [expectedList] using h1
      rw [h0]
    rw [hq]
  · have hpend : (splitFrames (encodeAll ps ++ [0])).map parse_block = oksOf ps := by
      rw [splitFrames_encodeAll ps hplen, splitFrames_short (by simp)]
      simpa using map_parse_encode ps hplen hpb
    simp only [MultithreadedReader.fromStream]
    rw [hpend]
    rw [drainAll_spec _ _ _ _ default_block_not_hasRemaining (oksOf_fresh ps)]
    have h1 := expectedList_oks ps hpne []
    simpa [expectedList] using h1

lemma iterReadBlock_spec : ∀ (k : Nat) (ps : List (List Nat))
    (res : Except IoErr Unit) (pos : Nat) (buf : Block),
    k ≤ ps.length → (∀ p ∈ ps, p ≠ []) →
    ∃ r', iterReadBlock ⟨some (oksOf ps, res), pos, buf⟩ k = some r' ∧
      r'.position = pos + ((ps.take k).map (fun p => p.length + 14)).sum ∧
      (0 < k → r'.buffer.position =
        pos + ((ps.take (k - 1)).map (fun p => p.length + 14)).sum) ∧
      (k = 0 → r' = ⟨some (oksOf ps, res), pos, buf⟩) := by
  intro k
  induction k with
  | zero =>
    intro ps res pos buf hk hne
    refine ⟨⟨some (oksOf ps, res), pos, buf⟩, rfl, by simp, by omega, fun _ => rfl⟩
  | succ k ih =>
    intro ps res pos buf hk hne
    cases ps with
    | nil => simp at hk
    | cons p ps =>
      have hp : p ≠ [] := hne p (by simp)
      have hdata : 0 < (mkBlock p).data.length := by
        cases hd : p with
        | nil => exact absurd hd hp
        | cons x xs => simp [mkBlock, hd]
      have hoks : oksOf (p :: ps) = Except.ok (mkBlock p) :: oksOf ps := by
        simp [oksOf]
      have hrb := read_block_ok hdata (oksOf ps) res pos buf
      have hstep : iterReadBlock ⟨some (oksOf (p :: ps), res), pos, buf⟩ (k + 1) =
          iterReadBlock ⟨some (oksOf ps, res), pos + (mkBlock p).size,
            { mkBlock p with position := pos }⟩ k := by
        rw [hoks]
        simp only [iterReadBlock]
        rw [hrb]
      obtain ⟨r', hiter, hpos, hbufpos, hzero⟩ := ih ps res (pos + (mkBlock p).size)
        { mkBlock p with position := pos } (by simp at hk; omega)
        (fun q hq => hne q (by simp [hq]))
      refine ⟨r', by rw [hstep, hiter], ?_, ?_, by omega⟩
      · rw [hpos]
        simp [mkBlock, List.take_succ_cons]
        omega
      · intro _
        cases hk0 : k with
        | zero =>
          have hr' := hzero hk0
          subst hr'
          simp [mkBlock, hk0]
        | succ k2 =>
          have hb := hbufpos (by omega)
          rw [hb]
          simp [mkBlock, List.take_succ_cons, hk0]
          omega

/-- C7: position tracking is done by the consumer, not the workers: on each
delivered block, read_block stamps the block with the consumer's running
compressed-stream offset, advances the offset by the block's on-disk size, and swaps
the block in as the active buffer; after receiving k blocks the reader's position
equals the sum of the on-disk sizes of all blocks received so far, and the k-th
block's stamped position equals the sum of the sizes of all blocks before it in the
stream. -/
theorem multithreaded_reader_position_tracking (ps : List (List Nat))
    (hlen : ∀ p ∈ ps, p.length + 14 ≤ 65535) (hb : ∀ p ∈ ps, ∀ x ∈ p, x < 256)
    (hne : ∀ p ∈ ps, p ≠ []) (k : Nat) (hk : k ≤ ps.length) :
    ∃ r', iterReadBlock (MultithreadedReader.fromStream (encodeAll ps)) k = some r' ∧
      r'.position = ((ps.take k).map (fun p => p.length + 14)).sum ∧
      (0 < k → r'.buffer.position =
        ((ps.take (k - 1)).map (fun p => p.length + 14)).sum) := by
  rw [fromStream_clean ps hlen hb]
  obtain ⟨r', h1, h2, h3, _⟩ := iterReadBlock_spec k ps (.ok ()) 0 {} hk hne
  refine ⟨r', h1, by simpa using h2, fun h0 => by simpa using h3 h0⟩

/-- Witness for C7 on a concrete two-block stream after receiving both blocks. -/
theorem multithreaded_reader_position_tracking_witness :
    (∀ p ∈ [[1], [2, 3]], List.length p + 14 ≤ 65535) ∧
    (∀ p ∈ [[1], [2, 3]], ∀ x ∈ p, x < 256) ∧
    (∀ p ∈ ([[1], [2, 3]] : List (List Nat)), p ≠ []) ∧
    2 ≤ ([[1], [2, 3]] : List (List Nat)).length ∧
    (∃ r', iterReadBlock (MultithreadedReader.fromStream (encodeAll [[1], [2, 3]])) 2 =
        some r' ∧
      r'.position =
        ((([[1], [2, 3]] : List (List Nat)).take 2).map (fun p => p.length + 14)).sum ∧
      (0 < 2 → r'.buffer.position =
        ((([[1], [2, 3]] : List (List Nat)).take (2 - 1)).map
          (fun p => p.length + 14)).sum)) :=
  ⟨by decide, by decide, by decide, by decide,
    multithreaded_reader_position_tracking [[1], [2, 3]] (by decide) (by decide)
      (by decide) 2 (by decide)⟩

/-- C8: once finish() has taken the reader's state, the state Option is none, so a
second finish(), any read_block or recv_buffer (hence any fill_buf or read that
reaches them), and also simply dropping the reader (whose Drop calls finish again)
hit the unconditional unwrap and panic (modelled as none); the first finish on a
running reader succeeds and returns the producer result, so the clean implicit-drop
shutdown holds only when finish() was never called explicitly. -/
theorem multithreaded_reader_finished_state_panics (r : MultithreadedReader)
    (pend : List (Except IoErr Block)) (res : Except IoErr Unit)
    (h : r.state = some (pend, res)) (hbuf : r.buffer.hasRemaining = false) :
    ∃ r', r.finish = some (r', res) ∧ r'.state = none ∧
      r.dropReader = some r' ∧
      r'.finish = none ∧ r'.read_block = none ∧ r'.recv_buffer = none ∧
      r'.fill_buf = none ∧ r'.dropReader = none := by
  obtain ⟨st, pos, buf⟩ := r
  simp only at h hbuf
  subst h
  refine ⟨⟨none, pos, buf⟩, rfl, rfl, rfl, rfl, rfl, rfl, ?_, rfl⟩
  rw [fill_buf_eq_read_block (show Block.hasRemaining buf = false from hbuf)]
  rfl

/-- Witness for C8 on the reader of an empty stream. -/
theorem multithreaded_reader_finished_state_panics_witness :
    (MultithreadedReader.fromStream []).state = some ([], .ok ()) ∧
    (MultithreadedReader.fromStream []).buffer.hasRemaining = false ∧
    (∃ r', (MultithreadedReader.fromStream []).finish = some (r', .ok ()) ∧
      r'.state = none ∧ (MultithreadedReader.fromStream []).dropReader = some r' ∧
      r'.finish = none ∧ r'.read_block = none ∧ r'.recv_buffer = none ∧
      r'.fill_buf = none ∧ r'.dropReader = none) :=
  ⟨rfl, rfl, multithreaded_reader_finished_state_panics _ [] (.ok ()) rfl rfl⟩

/-- Witness for C3 on a concrete two-block stream followed by the EOF marker. -/
theorem multithreaded_reader_eof_clean_witness :
    (∀ p ∈ [[1], [2, 3]], List.length p + 14 ≤ 65535) ∧
    (∀ p ∈ [[1], [2, 3]], ∀ x ∈ p, x < 256) ∧
    (∃ r2 r3 r4,
      MultithreadedReader.readToEnd
          (MultithreadedReader.fromStream (encodeAll [[1], [2, 3]] ++ eofFrame)) =
        some (r2, .ok ([[1], [2, 3]] : List (List Nat)).flatten) ∧
      r2.fill_buf = some (r3, .ok ()) ∧
      r3.buffer.remaining = [] ∧
      r2.readOp 4096 = some (r4, .ok [])) :=
  ⟨by decide, by decide,
    multithreaded_reader_eof_clean [[1], [2, 3]] (by decide) (by decide)⟩

/-- Witness for C9 on a concrete stream with a mid-stream EOF marker. -/
theorem multithreaded_reader_skips_empty_blocks_witness :
    (∀ p ∈ [[1]], List.length p + 14 ≤ 65535) ∧
    (∀ p ∈ [[1]], ∀ x ∈ p, x < 256) ∧
    (∀ p ∈ [[2]], List.length p + 14 ≤ 65535) ∧
    (∀ p ∈ [[2]], ∀ x ∈ p, x < 256) ∧
    readResult (encodeAll [[1]] ++ eofFrame ++ encodeAll [[2]]) =
      some (.ok (([[1]] : List (List Nat)).flatten ++ ([[2]] : List (List Nat)).flatten)) :=
  ⟨by decide, by decide, by decide, by decide,
    multithreaded_reader_skips_empty_blocks [[1]] [[2]] (by decide) (by decide)
      (by decide) (by decide)⟩

/-- Witness for the amended C2 on concrete streams. -/
theorem multithreaded_reader_error_surfacing_witness :
    (∀ p ∈ [[1]], List.length p + 14 ≤ 65535) ∧
    (∀ p ∈ [[1]], ∀ x ∈ p, x < 256) ∧
    (∀ p ∈ [[2]], List.length p + 14 ≤ 65535) ∧
    (∀ p ∈ [[2]], ∀ x ∈ p, x < 256) ∧
    ((∃ r2, MultithreadedReader.readToEnd (MultithreadedReader.fromStream
        (encodeAll [[1]] ++ badMagicFrame ++ encodeAll [[2]])) =
      some (r2, .error .invalidData)) ∧
    readResult (encodeAll [[1]] ++ [0]) = some (.ok ([[1]] : List (List Nat)).flatten) ∧
    streamResult (encodeAll [[1]] ++ [0]) = .error .unexpectedEof) :=
  ⟨by decide, by decide, by decide, by decide,
    multithreaded_reader_error_surfacing [[1]] [[2]] (by decide) (by decide)
      (by decide) (by decide)⟩

/-- Witness for C4 on a concrete clean-plus-truncated-tail stream. -/
theorem multithreaded_reader_finish_returns_producer_result_witness :
    (∀ p ∈ [[3]], List.length p + 14 ≤ 65535) ∧
    (∀ p ∈ [[3]], ∀ x ∈ p, x < 256) ∧
    ([0] : List Nat).length < 6 ∧
    (∃ r2 out r3,
      MultithreadedReader.readToEnd
          (MultithreadedReader.fromStream (encodeAll [[3]] ++ [0])) = some (r2, out) ∧
      r2.finish = some (r3, streamResult (encodeAll [[3]] ++ [0])) ∧
      r3.state = none ∧
      streamResult (encodeAll [[3]] ++ [0]) =
        (if ([0] : List Nat).isEmpty then .ok () else .error .unexpectedEof)) :=
  ⟨by decide, by decide, by decide,
    multithreaded_reader_finish_returns_producer_result [[3]] (by decide) (by decide)
      [0] (by decide)⟩

/-- Witness for C5 on a concrete stream with a corrupt middle frame and on a
concrete truncated stream. -/
theorem multithreaded_reader_worker_failure_isolated_witness :
    (∀ p ∈ [[1]], List.length p + 14 ≤ 65535) ∧
    (∀ p ∈ [[1]], ∀ x ∈ p, x < 256) ∧
    (∀ p ∈ ([[1]] : List (List Nat)), p ≠ []) ∧
    (∀ p ∈ [[2]], List.length p + 14 ≤ 65535) ∧
    (∀ p ∈ [[2]], ∀ x ∈ p, x < 256) ∧
    (∀ p ∈ ([[2]] : List (List Nat)), p ≠ []) ∧
    (MultithreadedReader.drainAll (MultithreadedReader.fromStream
        (encodeAll [[1]] ++ badMagicFrame ++ encodeAll [[2]])) =
      some ((([[1]] : List (List Nat)).map Except.ok : List (Except IoErr (List Nat))) ++
        .error .invalidData :: ([[2]] : List (List Nat)).map Except.ok) ∧
    MultithreadedReader.drainAll (MultithreadedReader.fromStream (encodeAll [[1]] ++ [0])) =
      some (([[1]] : List (List Nat)).map Except.ok)) :=
  ⟨by decide, by decide, by decide, by decide, by decide, by decide,
    multithreaded_reader_worker_failure_isolated [[1]] [[2]] (by decide) (by decide)
      (by decide) (by decide) (by decide) (by decide)⟩

end NoodlesBgzf

namespace NoodlesCram

/-- The CRAM record external-data reader store
(noodles-cram/src/reader/record/external_data_readers.rs): a 64-slot array for block
content ids 0 through 63 and a hash map for every other id. The array is embedded as
a function from Fin 64 and the hash map as a function from the i32 key type
(embedded as Int) to an optional reader. -/
structure ExternalDataReaders (R : Type) where
  low_readers : Fin 64 → Option R
  high_readers : Int → Option R

/-- The all-empty 64-slot array built by init_low_readers. -/
def init_low_readers (R : Type) : Fin 64 → Option R := fun _ => none

/-- ExternalDataReaders::new. -/
def ExternalDataReaders.new (R : Type) : ExternalDataReaders R :=
  { low_readers := init_low_readers R, high_readers := fun _ => none }

/-- ExternalDataReaders::insert: ids 0..=63 go to the array, every other id
(including negative ids) to the map. -/
def ExternalDataReaders.insert {R : Type} (s : ExternalDataReaders R) (id : Int)
    (reader : R) : ExternalDataReaders R :=
  if h : 0 ≤ id ∧ id ≤ 63 then
    { s with low_readers := fun j =>
        if j = (⟨id.toNat, by omega⟩ : Fin 64) then some reader else s.low_readers j }
  else
    { s with high_readers := fun j => if j = id then some reader else s.high_readers j }

/-- ExternalDataReaders::get_mut (as the reader it yields, if any). -/
def ExternalDataReaders.get_mut {R : Type} (s : ExternalDataReaders R) (id : Int) :
    Option R :=
  if h : 0 ≤ id ∧ id ≤ 63 then s.low_readers ⟨id.toNat, by omega⟩
  else s.high_readers id

/-- Modelled from the spec side of the refinement: a single map keyed by the i32
block content id. -/
def SpecReaders (R : Type) : Type := Int → Option R

/-- The empty single map. -/
def SpecReaders.new (R : Type) : SpecReaders R := fun _ => none

/-- Insert into the single map, overwriting any previous reader for the id. -/
def SpecReaders.insert {R : Type} (m : SpecReaders R) (id : Int) (reader : R) :
    SpecReaders R :=
  fun j => if j = id then some reader else m j

/-- Applies a sequence of inserts to the split store. -/
def applyInserts {R : Type} (s : ExternalDataReaders R) :
    List (Int × R) → ExternalDataReaders R
  | [] => s
  | (id, reader) :: ops => applyInserts (s.insert id reader) ops

/-- Applies a sequence of inserts to the single map. -/
def applySpecInserts {R : Type} (m : SpecReaders R) : List (Int × R) → SpecReaders R
  | [] => m
  | (id, reader) :: ops => applySpecInserts (m.insert id reader) ops

lemma get_mut_insert {R : Type} (s : ExternalDataReaders R) (m : SpecReaders R)
    (hsim : ∀ j, s.get_mut j = m j) (id : Int) (reader : R) :
    ∀ j, (s.insert id reader).get_mut j = (m.insert id reader) j := by
  intro j
  have hj' := hsim j
  unfold ExternalDataReaders.get_mut at hj' ⊢
  unfold ExternalDataReaders.insert SpecReaders.insert
  by_cases hid : 0 ≤ id ∧ id ≤ 63 <;> by_cases hjr : 0 ≤ j ∧ j ≤ 63
  · rw [dif_pos hid, dif_pos hjr]
    rw [dif_pos hjr] at hj'
    show (if (⟨j.toNat, by omega⟩ : Fin 64) = ⟨id.toNat, by omega⟩ then some reader
        else s.low_readers ⟨j.toNat, by omega⟩) = if j = id then some reader else m j
    by_cases hji : j = id
    · subst hji
      simp
    · have hfin : (⟨j.toNat, by omega⟩ : Fin 64) ≠ ⟨id.toNat, by omega⟩ := by
        intro hcon
        have h2 : j.toNat = id.toNat := congrArg Fin.val hcon
        omega
      rw [if_neg hfin, if_neg hji]
      exact hj'
  · rw [dif_pos hid, dif_neg hjr]
    rw [dif_neg hjr] at hj'
    show s.high_readers j = if j = id then some reader else m j
    have hji : j ≠ id := by
      intro hcon
      subst hcon
      exact hjr hid
    rw [if_neg hji]
    exact hj'
  · rw [dif_neg hid, dif_pos hjr]
    rw [dif_pos hjr] at hj'
    show s.low_readers ⟨j.toNat, by omega⟩ = if j = id then some reader else m j
    have hji : j ≠ id := by
      intro hcon
      subst hcon
      exact hid hjr
    rw [if_neg hji]
    exact hj'
  · rw [dif_neg hid, dif_neg hjr]
    rw [dif_neg hjr] at hj'
    show (if j = id then some reader else s.high_readers j) =
      if j = id then some reader else m j
    by_cases hji : j = id
    · rw [if_pos hji, if_pos hji]
    · rw [if_neg hji, if_neg hji]
      exact hj'

lemma applySpecInserts_snoc {R : Type} (m : SpecReaders R) (ops : List (Int × R))
    (id : Int) (reader : R) :
    applySpecInserts m (ops ++ [(id, reader)]) =
      (applySpecInserts m ops).insert id reader := by
  induction ops generalizing m with
  | nil => rfl
  | cons op ops ih =>
    obtain ⟨oid, r⟩ := op
    exact ih (m.insert oid r)

lemma applySpecInserts_not_mem {R : Type} (m : SpecReaders R) (ops : List (Int × R))
    (id : Int) (h : id ∉ ops.map Prod.fst) :
    applySpecInserts m ops id = m id := by
  induction ops generalizing m with
  | nil => rfl
  | cons op ops ih =>
    obtain ⟨oid, r⟩ := op
    simp only [List.map_cons, List.mem_cons] at h
    push_neg at h
    show applySpecInserts (m.insert oid r) ops id = m id
    rw [ih (m.insert oid r) h.2]
    unfold SpecReaders.insert
    rw [if_neg h.1]

lemma applyInserts_sim {R : Type} (ops : List (Int × R)) :
    ∀ (s : ExternalDataReaders R) (m : SpecReaders R),
    (∀ j, s.get_mut j = m j) →
    ∀ j, (applyInserts s ops).get_mut j = applySpecInserts m ops j := by
  induction ops with
  | nil =>
    intro s m hsim j
    exact hsim j
  | cons op ops ih =>
    intro s m hsim j
    obtain ⟨oid, r⟩ := op
    exact ih _ _ (get_mut_insert s m hsim oid r) j

/-- C10: the split store (64-slot array for ids 0..=63 plus hash map for all other
ids, including negative ids) is observationally equivalent to a single map keyed by
the i32 id: after any sequence of inserts, get_mut returns exactly what the single
map returns — in particular, the most recently inserted reader for an id, and none
for an id never inserted. -/
theorem external_data_readers_equiv {R : Type} (ops : List (Int × R)) (id : Int) :
    (applyInserts (ExternalDataReaders.new R) ops).get_mut id =
      applySpecInserts (SpecReaders.new R) ops id ∧
    (id ∉ ops.map Prod.fst →
      (applyInserts (ExternalDataReaders.new R) ops).get_mut id = none) ∧
    (∀ reader, (applyInserts (ExternalDataReaders.new R)
        (ops ++ [(id, reader)])).get_mut id = some reader) := by
  have hnew : ∀ j, (ExternalDataReaders.new R).get_mut j = SpecReaders.new R j := by
    intro j
    unfold ExternalDataReaders.get_mut ExternalDataReaders.new SpecReaders.new
      init_low_readers
    split <;> rfl
  have hmain := applyInserts_sim ops (ExternalDataReaders.new R) (SpecReaders.new R) hnew
  refine ⟨hmain id, ?_, ?_⟩
  · intro hnm
    rw [hmain id, applySpecInserts_not_mem _ _ _ hnm]
    rfl
  · intro reader
    have h2 := applyInserts_sim (ops ++ [(id, reader)]) (ExternalDataReaders.new R)
      (SpecReaders.new R) hnew
    rw [h2 id, applySpecInserts_snoc]
    unfold SpecReaders.insert
    rw [if_pos rfl]

/-- Witness for C10 at a concrete operation sequence covering a low id, a high id,
a negative id, and an overwrite. -/
theorem external_data_readers_equiv_witness :
    ((applyInserts (ExternalDataReaders.new Nat) [(70, 1), (0, 2), (-5, 3), (0, 4)]).get_mut 0 =
      applySpecInserts (SpecReaders.new Nat) [(70, 1), (0, 2), (-5, 3), (0, 4)] 0 ∧
    ((0 : Int) ∉ ([(70, 1), (0, 2), (-5, 3), (0, 4)] : List (Int × Nat)).map Prod.fst →
      (applyInserts (ExternalDataReaders.new Nat)
        [(70, 1), (0, 2), (-5, 3), (0, 4)]).get_mut 0 = none) ∧
    (∀ reader, (applyInserts (ExternalDataReaders.new Nat)
        ([(70, 1), (0, 2), (-5, 3), (0, 4)] ++ [(0, reader)])).get_mut 0 = some reader)) :=
  external_data_readers_equiv [(70, 1), (0, 2), (-5, 3), (0, 4)] 0

end NoodlesCram

